import Mathlib

/-!
Verification of the connection reactor in `src/proxy.rs` (struct `Server`).

The reactor state (`Server`) and its operations (`accept`, `dispatch` with its
helpers `fan_out`, `fan_in`, `drop_pump`) are embedded as executable Lean
functions.  External collaborators that are not part of this repository
(the `Pump` buffering type from the `pump` crate, the `DcPool` pool, the `mio`
poll and the `slab` arena) are modelled from the specification's description of
their observable contracts; every such definition carries a doc comment saying
so.  Socket-level outcomes (what `drain`, `flush`, the pool and `accept`
return) are inputs of each event, so a dispatch cycle is a pure function of
the current state and the delivered event batch.
-/

namespace MTProxy

/-- Bytes are modelled as naturals; only buffer contents/emptiness matter. -/
abbrev Byte := Nat

/-- Modelled from the spec: the external `Pump` collaborator, reduced to its
observable state: buffered inbound bytes (filled by `drain`, emptied by
`pull`), buffered outbound bytes (filled by `push`, shrunk by `flush`), and a
read-interest flag.  Write interest is "has pending outbound data" (§3
Detached Set, §4.2 step 4 of the spec equate the two). -/
structure Pump where
  inBuf : List Byte
  outBuf : List Byte
  wantRead : Bool
deriving DecidableEq, Repr

/-- Modelled from the spec: `pull()` removes and returns the currently
buffered inbound bytes (empty if none). -/
def Pump.pull (p : Pump) : List Byte × Pump :=
  (p.inBuf, { p with inBuf := [] })

/-- Modelled from the spec: `push(bytes)` appends to the outbound buffer. -/
def Pump.push (p : Pump) (bs : List Byte) : Pump :=
  { p with outBuf := p.outBuf ++ bs }

/-- Modelled from the spec: a successful `flush()` writes as much outbound
data as the OS accepts; `n` is the number of bytes the OS took. -/
def Pump.doFlush (p : Pump) (n : Nat) : Pump :=
  { p with outBuf := p.outBuf.drop n }

/-- Modelled from the spec: `interest().is_writable()` — the pump wants to
write exactly when it has pending outbound data. -/
def Pump.wantsWrite (p : Pump) : Bool :=
  !p.outBuf.isEmpty

/-! ### The slab registry

Modelled from the documented behaviour of the external `slab` crate: a dense
arena of reusable slots; `insert` stores the value in a vacant slot (or grows
the arena) and returns its index, `get` returns `None` for a vacant or
out-of-range index, `remove` vacates a slot (it panics on a vacant slot, which
the embedding surfaces as `Option.none` at the call sites in `drop_pump`),
`len` counts occupied slots.  Which vacant slot `insert` picks is internal to
the crate; the embedding uses the first vacant index.  No claim depends on the
choice: they quantify over tokens. -/

def slabGet : List (Option Pump) → Nat → Option Pump
  | [], _ => none
  | c :: _, 0 => c
  | _ :: rest, t + 1 => slabGet rest t

def slabSet : List (Option Pump) → Nat → Option Pump → List (Option Pump)
  | [], _, _ => []
  | _ :: rest, 0, c => c :: rest
  | x :: rest, t + 1, c => x :: slabSet rest t c

def firstVacant : List (Option Pump) → Option Nat
  | [] => none
  | none :: _ => some 0
  | some _ :: rest => (firstVacant rest).map Nat.succ

def slabInsert (l : List (Option Pump)) (p : Pump) : List (Option Pump) × Nat :=
  match firstVacant l with
  | some i => (slabSet l i (some p), i)
  | none => (l ++ [some p], l.length)

def slabLen (l : List (Option Pump)) : Nat :=
  l.countP Option.isSome

/-! ### The link table and the detached set

`links : HashMap<Token, Token>` is embedded as an association list with
replace-on-insert, `detached : HashSet<Token>` and the per-cycle `stale` set
as duplicate-free lists with append-on-insert. -/

def lookupLink : List (Nat × Nat) → Nat → Option Nat
  | [], _ => none
  | (k, v) :: rest, t => if k = t then some v else lookupLink rest t

def linksRemove : List (Nat × Nat) → Nat → List (Nat × Nat)
  | [], _ => []
  | (k', v) :: rest, k =>
    if k' = k then linksRemove rest k else (k', v) :: linksRemove rest k

def linksInsert (l : List (Nat × Nat)) (k v : Nat) : List (Nat × Nat) :=
  (k, v) :: linksRemove l k

def insTok (l : List Nat) (t : Nat) : List Nat :=
  if t ∈ l then l else l ++ [t]

def removeTok : List Nat → Nat → List Nat
  | [], _ => []
  | x :: rest, t => if x = t then removeTok rest t else x :: removeTok rest t

def assocFilterOut : List (Nat × Pump) → Nat → List (Nat × Pump)
  | [], _ => []
  | (k', v) :: rest, k =>
    if k' = k then assocFilterOut rest k else (k', v) :: assocFilterOut rest k

def assocInsert (l : List (Nat × Pump)) (k : Nat) (v : Pump) : List (Nat × Pump) :=
  (k, v) :: assocFilterOut l k

/-! ### The reactor state and events -/

/-- `MAX_PUMPS` from `proxy.rs`. -/
def MAX_PUMPS : Nat := 1024 * 1024

/-- `ROOT_TOKEN = Token(usize::MAX - 1)` on a 64-bit target. -/
def rootToken : Nat := 2 ^ 64 - 2

/-- The `Server` reactor state: the pump registry (slab), the link table and
the detached set.  The listening socket, poll handle, secret and pool carry no
reactor-visible state and are omitted; their outcomes are event inputs. -/
structure Server where
  pumps : List (Option Pump)
  links : List (Nat × Nat)
  detached : List Nat
deriving DecidableEq, Repr

def Server.initial : Server :=
  { pumps := [], links := [], detached := [] }

/-- Outcome of `pump.drain()` for one readable event, together with the pool
answer when a routing decision is produced: `er` is `Err(_)`, `quiet bs` is
`Ok(None)` after absorbing `bs`, `route bs peer` is `Ok(Some(dc_idx))` after
absorbing `bs`, with `self.pool.get(dc_idx)` returning `peer`. -/
inductive DrainRes where
  | er : DrainRes
  | quiet (bs : List Byte) : DrainRes
  | route (bs : List Byte) (peer : Option Pump) : DrainRes
deriving DecidableEq, Repr

/-- One delivered readiness event, with the socket-level outcomes of the
calls the reactor makes while handling it: `drain` (when readable), `flush`
(when writable; `some n` = `Ok` with `n` bytes written, `none` = `Err`), and
`acc` (for the listener token: the accepted pump, `none` = accept error). -/
structure Ev where
  token : Nat
  readable : Bool
  writable : Bool
  hup : Bool
  isErr : Bool
  drain : DrainRes
  flush : Option Nat
  acc : Option Pump
deriving DecidableEq, Repr

/-- Registration actions issued against the mio `Poll`.  Registration itself
is infallible in the embedding (the `?` on poll calls only propagates OS
failures, which the spec classes as fatal/ignored); the actions are logged so
that re-registration behaviour can be stated. -/
inductive PollOp where
  | reg (t : Nat)
  | rereg (t : Nat)
  | dereg (t : Nat)
deriving DecidableEq, Repr

/-! ### The reactor operations, one Lean definition per source function -/

/-- `Server::accept` (proxy.rs:185–213): refuse when `pumps.len() > MAX_PUMPS`
or when the OS accept fails; otherwise insert the new downstream pump and
register it. -/
def Server.accept (s : Server) (r : Option Pump) : Server × List PollOp :=
  if slabLen s.pumps > MAX_PUMPS then (s, [])
  else
    match r with
    | none => (s, [])
    | some p =>
      let ins := slabInsert s.pumps p
      ({ s with pumps := ins.1 }, [PollOp.reg ins.2])

/-- `Server::fan_out` (proxy.rs:215–234): pull the current pump's buffered
bytes; if empty, done; otherwise push them into the linked peer's outbound
buffer and re-register the peer.  `pt = tok` would double-borrow the same
`RefCell` and panic, surfaced as `none`, as is the `unwrap` of a vacant peer
slot. -/
def fanOut (pumps : List (Option Pump)) (tok : Nat) (p : Pump) (pt : Nat) :
    Option (Pump × List (Option Pump) × List PollOp) :=
  let pulled := p.pull
  if pulled.1.isEmpty then some (pulled.2, pumps, [])
  else if pt = tok then none
  else
    match slabGet pumps pt with
    | none => none
    | some peer =>
      some (pulled.2, slabSet pumps pt (some (peer.push pulled.1)), [PollOp.rereg pt])

/-- `Server::fan_in` (proxy.rs:236–255): pull the linked peer's buffered
bytes; if empty, done; otherwise push them into the current pump's outbound
buffer and re-register the peer. -/
def fanIn (pumps : List (Option Pump)) (tok : Nat) (p : Pump) (pt : Nat) :
    Option (Pump × List (Option Pump) × List PollOp) :=
  if pt = tok then none
  else
    match slabGet pumps pt with
    | none => none
    | some peer =>
      let pulled := peer.pull
      let pumps1 := slabSet pumps pt (some pulled.2)
      if pulled.1.isEmpty then some (p, pumps1, [])
      else some (p.push pulled.1, pumps1, [PollOp.rereg pt])

/-- The `readiness.is_readable()` drain arm of `dispatch` (proxy.rs:98–116):
on a routing decision ask the pool, prime the obtained upstream with the
already-buffered client bytes, and queue the pairing in `new_peers`; on a
pool miss or a drain error mark the token stale. -/
def drainStep (tok : Nat) (dr : DrainRes) (p : Pump) (stale : List Nat)
    (newPeers : List (Nat × Pump)) : Pump × List Nat × List (Nat × Pump) :=
  match dr with
  | DrainRes.er => (p, insTok stale tok, newPeers)
  | DrainRes.quiet bs => ({ p with inBuf := p.inBuf ++ bs }, stale, newPeers)
  | DrainRes.route bs peerRes =>
    let p1 : Pump := { p with inBuf := p.inBuf ++ bs }
    match peerRes with
    | some peer =>
      let pulled := p1.pull
      let peer1 := if pulled.1.length > 0 then peer.push pulled.1 else peer
      (pulled.2, stale, assocInsert newPeers tok peer1)
    | none => (p1, insTok stale tok, newPeers)

/-- The accumulator threaded through the event loop of `dispatch`: the server
plus the cycle-local `stale` set, `new_peers` map and the poll-action log. -/
structure Acc where
  srv : Server
  stale : List Nat
  newPeers : List (Nat × Pump)
  log : List PollOp
deriving DecidableEq, Repr

/-- Result of handling one event: continue the batch, stop it early
(`break` on flush error), or panic (an `unwrap`/borrow failure). -/
inductive StepOut where
  | cont (a : Acc)
  | halt (a : Acc)
  | panic
deriving DecidableEq, Repr

/-- The readable facet of one event (proxy.rs:96–120): drain, then fan out
across an existing link. -/
def readPhase (srv : Server) (ev : Ev) (p : Pump) (stale : List Nat)
    (newPeers : List (Nat × Pump)) :
    Option (Pump × Server × List Nat × List (Nat × Pump) × List PollOp) :=
  if ev.readable then
    match drainStep ev.token ev.drain p stale newPeers with
    | (p1, stale1, np1) =>
      match lookupLink srv.links ev.token with
      | some pt =>
        match fanOut srv.pumps ev.token p1 pt with
        | none => none
        | some (p2, pumps2, lg) =>
          some (p2, { srv with pumps := pumps2 }, stale1, np1, lg)
      | none => some (p1, srv, stale1, np1, [])
  else some (p, srv, stale, newPeers, [])

/-- The writable facet of one event (proxy.rs:122–135): fan in across an
existing link, then flush.  The returned `Bool` is `false` when the flush
failed (mark stale and `break`). -/
def writePhase (srv : Server) (ev : Ev) (p : Pump) (stale : List Nat) :
    Option (Bool × Pump × Server × List Nat × List PollOp) :=
  if ev.writable then
    let fi : Option (Pump × Server × List PollOp) :=
      match lookupLink srv.links ev.token with
      | some pt =>
        match fanIn srv.pumps ev.token p pt with
        | none => none
        | some (p1, pumps1, lg) => some (p1, { srv with pumps := pumps1 }, lg)
      | none => some (p, srv, [])
    match fi with
    | none => none
    | some (p1, srv1, lg) =>
      match ev.flush with
      | some n => some (true, p1.doFlush n, srv1, stale, lg)
      | none => some (false, p1, srv1, insTok stale ev.token, lg)
  else some (true, p, srv, stale, [])

/-- Handling of one delivered event inside `dispatch` (proxy.rs:77–151):
listener events go to `accept`; a token with no backing slot is skipped;
otherwise the readable, writable and hangup/error facets run in order, and
the socket is re-registered only when neither hangup nor error is set.  The
borrowed pump is written back to its slot when the event's handling ends. -/
def procEvent (a : Acc) (ev : Ev) : StepOut :=
  if ev.token = rootToken then
    match a.srv.accept ev.acc with
    | (srv1, lg) => StepOut.cont { a with srv := srv1, log := a.log ++ lg }
  else
    match slabGet a.srv.pumps ev.token with
    | none => StepOut.cont a
    | some p =>
      match readPhase a.srv ev p a.stale a.newPeers with
      | none => StepOut.panic
      | some (p1, srv1, stale1, np1, lg1) =>
        match writePhase srv1 ev p1 stale1 with
        | none => StepOut.panic
        | some (go, p2, srv2, stale2, lg2) =>
          if go then
            let tail : List Nat × List PollOp :=
              if ev.hup then (insTok stale2 ev.token, [])
              else if ev.isErr then (insTok stale2 ev.token, [])
              else (stale2, [PollOp.rereg ev.token])
            StepOut.cont
              { srv := { srv2 with pumps := slabSet srv2.pumps ev.token (some p2) },
                stale := tail.1, newPeers := np1,
                log := a.log ++ lg1 ++ lg2 ++ tail.2 }
          else
            StepOut.halt
              { srv := { srv2 with pumps := slabSet srv2.pumps ev.token (some p2) },
                stale := stale2, newPeers := np1,
                log := a.log ++ lg1 ++ lg2 }

/-- The event loop of `dispatch`: fold `procEvent` over the batch, stopping
early on `halt` (flush failure) and failing on `panic`. -/
def procEvents (a : Acc) : List Ev → Option Acc
  | [] => some a
  | ev :: rest =>
    match procEvent a ev with
    | StepOut.cont a1 => procEvents a1 rest
    | StepOut.halt a1 => some a1
    | StepOut.panic => none

/-- End-of-cycle activation of the pairings collected in `new_peers`
(proxy.rs:153–168): insert the upstream pump, link both directions
(`peer_token → token` then `token → peer_token`), register the upstream. -/
def applyNewPeers (s : Server) : List (Nat × Pump) → Server × List PollOp
  | [] => (s, [])
  | (tok, peer) :: rest =>
    let ins := slabInsert s.pumps peer
    let links1 := linksInsert (linksInsert s.links ins.2 tok) tok ins.2
    match applyNewPeers { s with pumps := ins.1, links := links1 } rest with
    | (s1, lg) => (s1, PollOp.reg ins.2 :: lg)

/-- End-of-cycle scan of the detached set (proxy.rs:170–176): collect every
detached token whose pump no longer wants to write; the `unwrap` on a vacant
slot is surfaced as `none`. -/
def scanDetached (pumps : List (Option Pump)) : List Nat → Option (List Nat)
  | [] => some []
  | t :: rest =>
    match slabGet pumps t with
    | none => none
    | some p =>
      match scanDetached pumps rest with
      | none => none
      | some out => some (if p.wantsWrite then out else t :: out)

/-- `Server::drop_pump` (proxy.rs:257–274): remove the token from the
detached set and the registry (`Slab::remove` panics on a vacant slot,
surfaced as `none`), deregister its socket, and if it was linked remove both
directions of the link and add the partner to the detached set. -/
def dropPump (s : Server) (t : Nat) : Option (Server × PollOp) :=
  match slabGet s.pumps t with
  | none => none
  | some _ =>
    let detached1 := removeTok s.detached t
    let pumps1 := slabSet s.pumps t none
    match lookupLink s.links t with
    | some pt =>
      some ({ pumps := pumps1,
              links := linksRemove (linksRemove s.links t) pt,
              detached := insTok detached1 pt }, PollOp.dereg t)
    | none =>
      some ({ pumps := pumps1, links := s.links, detached := detached1 },
            PollOp.dereg t)

/-- The drop loop at the end of `dispatch` (proxy.rs:178–180). -/
def dropStale (s : Server) : List Nat → Option (Server × List PollOp)
  | [] => some (s, [])
  | t :: rest =>
    match dropPump s t with
    | none => none
    | some (s1, op) =>
      match dropStale s1 rest with
      | none => none
      | some (s2, lg) => some (s2, op :: lg)

/-- `Server::dispatch` (proxy.rs:73–183): process the event batch, then apply
the collected pairings, then mark write-idle detached tokens stale, then drop
every stale token.  `none` means a slab/RefCell panic was reached. -/
def dispatch (s : Server) (evs : List Ev) : Option (Server × List PollOp) :=
  match procEvents { srv := s, stale := [], newPeers := [], log := [] } evs with
  | none => none
  | some a =>
    match applyNewPeers a.srv a.newPeers with
    | (s1, lg1) =>
      match scanDetached s1.pumps s1.detached with
      | none => none
      | some extra =>
        match dropStale s1 (extra.foldl insTok a.stale) with
        | none => none
        | some (s2, lg2) => some (s2, a.log ++ lg1 ++ lg2)

/-! ### Invariant, collaborator contract, reachability -/

/-- Consistency of the link table against the registry: every stored pair
has its mirror reachable by lookup, no self-links, and both endpoints of
every link are live registry slots. -/
def LinksOK (s : Server) : Prop :=
  (∀ kv ∈ s.links, lookupLink s.links kv.2 = some kv.1) ∧
  (∀ kv ∈ s.links, kv.1 ≠ kv.2) ∧
  (∀ kv ∈ s.links,
    (slabGet s.pumps kv.1).isSome = true ∧ (slabGet s.pumps kv.2).isSome = true)

/-- Every detached token is a live registry slot. -/
def DetOK (s : Server) : Prop :=
  ∀ t ∈ s.detached, (slabGet s.pumps t).isSome = true

/-- The registry-consistency invariant of the reactor state. -/
def Inv (s : Server) : Prop :=
  LinksOK s ∧ DetOK s

/-- The pump collaborator's contract for one event (spec §4.4: a drain
yields a routing decision only "the first time", so never for a token that
already has a link). -/
def evRouteOK (links : List (Nat × Nat)) (ev : Ev) : Bool :=
  if ev.token = rootToken then true
  else if ev.readable then
    match ev.drain with
    | DrainRes.route _ _ => (lookupLink links ev.token).isNone
    | _ => true
  else true

/-- A batch of events respecting the pump contract against state `s`. -/
def EventsWF (s : Server) (evs : List Ev) : Prop :=
  ∀ ev ∈ evs, evRouteOK s.links ev = true

/-- States reachable by the reactor: the initial state, and any state
produced by a dispatch cycle on a contract-respecting event batch. -/
inductive Reach : Server → Prop where
  | init : Reach Server.initial
  | step {s s' : Server} {evs : List Ev} {lg : List PollOp} :
      Reach s → EventsWF s evs → dispatch s evs = some (s', lg) → Reach s'

/-- Slot-liveness monotonicity between two registries: every live slot of
the first is live in the second. -/
def pumpsMono (l1 l2 : List (Option Pump)) : Prop :=
  ∀ t, (slabGet l1 t).isSome = true → (slabGet l2 t).isSome = true

/-- The `stale` set of an intermediate dispatch accumulator, `[]` on panic. -/
def staleOf : Option Acc → List Nat
  | some a => a.stale
  | none => []

/-- Final registry of a dispatch result, `[]` on panic. -/
def pumpsOf : Option (Server × List PollOp) → List (Option Pump)
  | some (s, _) => s.pumps
  | none => []

/-- Final link table of a dispatch result, `[]` on panic. -/
def linksOf : Option (Server × List PollOp) → List (Nat × Nat)
  | some (s, _) => s.links
  | none => []

/-- Poll-action log of a dispatch result, `[]` on panic. -/
def logOf : Option (Server × List PollOp) → List PollOp
  | some (_, lg) => lg
  | none => []

/-- The intra-batch invariant of the event loop, relative to the state `s0`
the cycle started from: links and detached set are untouched during the
batch, registry slots only become live (never vacated), the collected stale
set and `new_peers` map hold only live tokens without duplicates, and every
collected pairing is for a token that was unlinked at cycle start. -/
structure BatchOK (s0 : Server) (a : Acc) : Prop where
  links_eq : a.srv.links = s0.links
  det_eq : a.srv.detached = s0.detached
  mono : pumpsMono s0.pumps a.srv.pumps
  stale_live : ∀ t ∈ a.stale, (slabGet a.srv.pumps t).isSome = true
  stale_nodup : a.stale.Nodup
  np_live : ∀ kv ∈ a.newPeers, (slabGet a.srv.pumps kv.1).isSome = true
  np_unlinked : ∀ kv ∈ a.newPeers, lookupLink s0.links kv.1 = none
  np_keys_nodup : (a.newPeers.map Prod.fst).Nodup

/-! ### Basic lemmas about the slab -/

theorem slabGet_nil (t : Nat) : slabGet [] t = none := by
  cases t <;> rfl

theorem slabSet_nil (t : Nat) (c : Option Pump) : slabSet [] t c = [] := by
  cases t <;> rfl

theorem slabGet_slabSet_self {l : List (Option Pump)} {t : Nat} (c : Option Pump)
    (h : t < l.length) : slabGet (slabSet l t c) t = c := by
  induction l generalizing t with
  | nil => simp at h
  | cons x rest ih =>
    cases t with
    | zero => rfl
    | succ t => exact ih (by simpa using h)

theorem slabGet_slabSet_ne {l : List (Option Pump)} {t u : Nat} (c : Option Pump)
    (h : t ≠ u) : slabGet (slabSet l t c) u = slabGet l u := by
  induction l generalizing t u with
  | nil => rw [slabSet_nil]
  | cons x rest ih =>
    cases t with
    | zero =>
      cases u with
      | zero => exact absurd rfl h
      | succ u => rfl
    | succ t =>
      cases u with
      | zero => rfl
      | succ u => exact ih (fun hh => h (by rw [hh]))

theorem slabGet_isSome_lt {l : List (Option Pump)} {t : Nat}
    (h : (slabGet l t).isSome = true) : t < l.length := by
  induction l generalizing t with
  | nil => rw [slabGet_nil] at h; simp at h
  | cons x rest ih =>
    cases t with
    | zero => simp
    | succ t => simpa using ih h

theorem slabGet_of_le {l : List (Option Pump)} {t : Nat}
    (h : l.length ≤ t) : slabGet l t = none := by
  induction l generalizing t with
  | nil => exact slabGet_nil t
  | cons x rest ih =>
    cases t with
    | zero => simp at h
    | succ t => exact ih (by simpa using h)

theorem slabGet_append (l : List (Option Pump)) (c : Option Pump) (u : Nat) :
    slabGet (l ++ [c]) u = if u = l.length then c else slabGet l u := by
  induction l generalizing u with
  | nil =>
    cases u with
    | zero => simp [slabGet]
    | succ u => simp [slabGet, slabGet_nil]
  | cons x rest ih =>
    cases u with
    | zero => simp [slabGet]
    | succ u => simpa [slabGet] using ih u

theorem firstVacant_some {l : List (Option Pump)} {i : Nat}
    (h : firstVacant l = some i) : i < l.length ∧ slabGet l i = none := by
  induction l generalizing i with
  | nil => simp [firstVacant] at h
  | cons x rest ih =>
    cases x with
    | none =>
      simp [firstVacant] at h
      subst h
      exact ⟨by simp, rfl⟩
    | some p =>
      simp [firstVacant] at h
      obtain ⟨j, hj, rfl⟩ := h
      obtain ⟨h1, h2⟩ := ih hj
      exact ⟨by simpa using h1, h2⟩

theorem slabInsert_get_old (l : List (Option Pump)) (p : Pump) :
    slabGet l (slabInsert l p).2 = none := by
  unfold slabInsert
  cases hv : firstVacant l with
  | none => exact slabGet_of_le (le_refl _)
  | some i => exact (firstVacant_some hv).2

theorem slabInsert_get_new (l : List (Option Pump)) (p : Pump) :
    slabGet (slabInsert l p).1 (slabInsert l p).2 = some p := by
  unfold slabInsert
  cases hv : firstVacant l with
  | none => simp [slabGet_append]
  | some i => exact slabGet_slabSet_self _ (firstVacant_some hv).1

theorem slabInsert_get_other (l : List (Option Pump)) (p : Pump) {u : Nat}
    (h : u ≠ (slabInsert l p).2) : slabGet (slabInsert l p).1 u = slabGet l u := by
  unfold slabInsert at h ⊢
  cases hv : firstVacant l with
  | none =>
    rw [hv] at h
    simp only [slabGet_append]
    simp only [hv] at h
    simp [h]
  | some i =>
    rw [hv] at h
    exact slabGet_slabSet_ne _ (fun hh => h (by simp [hh]))

theorem slabSet_get_self {l : List (Option Pump)} {t : Nat} {p : Pump}
    (h : slabGet l t = some p) : slabSet l t (some p) = l := by
  induction l generalizing t with
  | nil => rw [slabSet_nil]
  | cons x rest ih =>
    cases t with
    | zero => simp [slabGet] at h; simp [slabSet, h]
    | succ t => simp [slabSet, ih h]

theorem isSome_slabSet_some {l : List (Option Pump)} {u : Nat} (t : Nat) (p : Pump)
    (h : (slabGet l u).isSome = true) :
    (slabGet (slabSet l t (some p)) u).isSome = true := by
  by_cases ht : t = u
  · subst ht
    rw [slabGet_slabSet_self _ (slabGet_isSome_lt h)]
    rfl
  · rw [slabGet_slabSet_ne _ ht]
    exact h

theorem isSome_slabInsert {l : List (Option Pump)} {u : Nat} (p : Pump)
    (h : (slabGet l u).isSome = true) :
    (slabGet (slabInsert l p).1 u).isSome = true := by
  by_cases hu : u = (slabInsert l p).2
  · subst hu
    rw [slabInsert_get_new]
    rfl
  · rw [slabInsert_get_other _ _ hu]
    exact h

/-! ### Basic lemmas about the link table -/

theorem lookupLink_mem {l : List (Nat × Nat)} {a b : Nat}
    (h : lookupLink l a = some b) : (a, b) ∈ l := by
  induction l with
  | nil => simp [lookupLink] at h
  | cons kv rest ih =>
    obtain ⟨k, v⟩ := kv
    simp only [lookupLink] at h
    by_cases hk : k = a
    · subst hk
      simp at h
      subst h
      exact List.mem_cons_self _ _
    · rw [if_neg hk] at h
      exact List.mem_cons_of_mem _ (ih h)

theorem lookupLink_linksRemove (l : List (Nat × Nat)) (k a : Nat) :
    lookupLink (linksRemove l k) a = if a = k then none else lookupLink l a := by
  induction l with
  | nil => simp [linksRemove, lookupLink]
  | cons kv rest ih =>
    obtain ⟨k', v'⟩ := kv
    simp only [linksRemove]
    by_cases hk : k' = k
    · subst hk
      rw [if_pos rfl, ih]
      by_cases ha : a = k'
      · simp [ha]
      · rw [if_neg ha, if_neg ha]
        simp only [lookupLink]
        rw [if_neg (fun h : k' = a => ha h.symm)]
    · rw [if_neg hk]
      simp only [lookupLink]
      by_cases ha : k' = a
      · subst ha
        rw [if_pos rfl, if_pos rfl, if_neg (fun h : k' = k => hk h)]
      · rw [if_neg ha, ih]
        by_cases hak : a = k
        · simp [hak]
        · rw [if_neg hak, if_neg hak, if_neg ha]

theorem lookupLink_linksInsert (l : List (Nat × Nat)) (k v a : Nat) :
    lookupLink (linksInsert l k v) a = if a = k then some v else lookupLink l a := by
  simp only [linksInsert, lookupLink]
  by_cases ha : a = k
  · simp [ha]
  · rw [if_neg (fun h => ha h.symm), if_neg ha, lookupLink_linksRemove, if_neg ha]

theorem linksRemove_sublist (l : List (Nat × Nat)) (k : Nat) :
    (linksRemove l k).Sublist l := by
  induction l with
  | nil => simp [linksRemove]
  | cons kv rest ih =>
    obtain ⟨k', v'⟩ := kv
    simp only [linksRemove]
    by_cases hk : k' = k
    · rw [if_pos hk]
      exact ih.cons _
    · rw [if_neg hk]
      exact ih.cons₂ _

theorem linksRemove_subset {l : List (Nat × Nat)} {k : Nat} :
    ∀ kv ∈ linksRemove l k, kv ∈ l :=
  fun _ h => (linksRemove_sublist l k).subset h

theorem mem_linksRemove {l : List (Nat × Nat)} {k : Nat} {kv : Nat × Nat}
    (h : kv ∈ l) (hne : kv.1 ≠ k) : kv ∈ linksRemove l k := by
  induction l with
  | nil => simp at h
  | cons kv' rest ih =>
    obtain ⟨k', v'⟩ := kv'
    simp only [linksRemove]
    rcases List.mem_cons.1 h with rfl | hmem
    · rw [if_neg (by simpa using hne)]
      exact List.mem_cons_self _ _
    · by_cases hk : k' = k
      · rw [if_pos hk]
        exact ih hmem
      · rw [if_neg hk]
        exact List.mem_cons_of_mem _ (ih hmem)

theorem key_of_mem_linksRemove {l : List (Nat × Nat)} {k : Nat} {kv : Nat × Nat}
    (h : kv ∈ linksRemove l k) : kv.1 ≠ k := by
  induction l with
  | nil => simp [linksRemove] at h
  | cons kv' rest ih =>
    obtain ⟨k', v'⟩ := kv'
    simp only [linksRemove] at h
    by_cases hk : k' = k
    · rw [if_pos hk] at h
      exact ih h
    · rw [if_neg hk] at h
      rcases List.mem_cons.1 h with rfl | hmem
      · exact hk
      · exact ih hmem

/-! ### Basic lemmas about the token-set operations -/

theorem mem_insTok {l : List Nat} {t x : Nat} : x ∈ insTok l t ↔ x ∈ l ∨ x = t := by
  unfold insTok
  by_cases h : t ∈ l
  · simp only [if_pos h]
    constructor
    · exact Or.inl
    · rintro (hx | rfl)
      · exact hx
      · exact h
  · simp [if_neg h]

theorem self_mem_insTok (l : List Nat) (t : Nat) : t ∈ insTok l t :=
  mem_insTok.2 (Or.inr rfl)

theorem insTok_nodup {l : List Nat} {t : Nat} (h : l.Nodup) : (insTok l t).Nodup := by
  unfold insTok
  by_cases ht : t ∈ l
  · simpa [ht] using h
  · simp only [if_neg ht]
    refine List.Nodup.append h (List.nodup_singleton t) ?_
    intro a ha hat
    rw [List.mem_singleton] at hat
    subst hat
    exact ht ha

theorem mem_removeTok {l : List Nat} {t x : Nat} :
    x ∈ removeTok l t ↔ x ∈ l ∧ x ≠ t := by
  induction l with
  | nil => simp [removeTok]
  | cons y rest ih =>
    simp only [removeTok]
    by_cases hy : y = t
    · subst hy
      rw [if_pos rfl, ih]
      constructor
      · rintro ⟨h1, h2⟩
        exact ⟨List.mem_cons_of_mem _ h1, h2⟩
      · rintro ⟨h1, h2⟩
        rcases List.mem_cons.1 h1 with rfl | h1
        · exact absurd rfl h2
        · exact ⟨h1, h2⟩
    · rw [if_neg hy]
      constructor
      · intro h1
        rcases List.mem_cons.1 h1 with rfl | h1
        · exact ⟨List.mem_cons_self _ _, hy⟩
        · obtain ⟨h2, h3⟩ := ih.1 h1
          exact ⟨List.mem_cons_of_mem _ h2, h3⟩
      · rintro ⟨h1, h2⟩
        rcases List.mem_cons.1 h1 with rfl | h1
        · exact List.mem_cons_self _ _
        · exact List.mem_cons_of_mem _ (ih.2 ⟨h1, h2⟩)

theorem assocFilterOut_sublist (l : List (Nat × Pump)) (k : Nat) :
    (assocFilterOut l k).Sublist l := by
  induction l with
  | nil => simp [assocFilterOut]
  | cons kv rest ih =>
    obtain ⟨k', v'⟩ := kv
    simp only [assocFilterOut]
    by_cases hk : k' = k
    · rw [if_pos hk]
      exact ih.cons _
    · rw [if_neg hk]
      exact ih.cons₂ _

theorem key_of_mem_assocFilterOut {l : List (Nat × Pump)} {k : Nat} {kv : Nat × Pump}
    (h : kv ∈ assocFilterOut l k) : kv.1 ≠ k := by
  induction l with
  | nil => simp [assocFilterOut] at h
  | cons kv' rest ih =>
    obtain ⟨k', v'⟩ := kv'
    simp only [assocFilterOut] at h
    by_cases hk : k' = k
    · rw [if_pos hk] at h
      exact ih h
    · rw [if_neg hk] at h
      rcases List.mem_cons.1 h with rfl | hmem
      · exact hk
      · exact ih hmem

theorem mem_assocInsert {np : List (Nat × Pump)} {k : Nat} {v : Pump} {kv : Nat × Pump}
    (h : kv ∈ assocInsert np k v) : kv = (k, v) ∨ kv ∈ np := by
  rcases List.mem_cons.1 h with h1 | h1
  · exact Or.inl h1
  · exact Or.inr ((assocFilterOut_sublist np k).subset h1)

theorem assocInsert_keysNodup {np : List (Nat × Pump)} {k : Nat} {v : Pump}
    (h : (np.map Prod.fst).Nodup) :
    ((assocInsert np k v).map Prod.fst).Nodup := by
  simp only [assocInsert, List.map_cons, List.nodup_cons]
  constructor
  · intro hm
    obtain ⟨kv, hkv, hfst⟩ := List.mem_map.1 hm
    exact key_of_mem_assocFilterOut hkv hfst
  · exact List.Nodup.sublist (List.Sublist.map _ (assocFilterOut_sublist np k)) h

theorem pull_of_empty {p : Pump} (h : p.inBuf = []) : Pump.pull p = ([], p) := by
  obtain ⟨i, o, w⟩ := p
  have h' : i = [] := h
  subst h'
  rfl

/-! ### Claim C8: FanOut / FanIn on an empty buffer are no-ops -/

/-- C8: when the pulled buffer is empty, `fan_out` and `fan_in` push no bytes
into any pump's outbound buffer, leave the registry unchanged, and issue no
re-registration with the poll. -/
theorem fan_empty_noop
    (pumps : List (Option Pump)) (tok pt : Nat) (p peer : Pump)
    (hp : p.inBuf = []) (hpt : pt ≠ tok) (hpeer : slabGet pumps pt = some peer)
    (hpe : peer.inBuf = []) :
    fanOut pumps tok p pt = some (p, pumps, []) ∧
    fanIn pumps tok p pt = some (p, pumps, []) := by
  constructor
  · simp only [fanOut, pull_of_empty hp]
    rfl
  · simp only [fanIn, if_neg hpt, hpeer, pull_of_empty hpe, slabSet_get_self hpeer]
    rfl

/-- C8 witness. -/
theorem fan_empty_noop_w :
    fanOut [some ⟨[], [], true⟩, some ⟨[], [], true⟩] 0 ⟨[], [], true⟩ 1 =
      some (⟨[], [], true⟩, [some ⟨[], [], true⟩, some ⟨[], [], true⟩], []) ∧
    fanIn [some ⟨[], [], true⟩, some ⟨[], [], true⟩] 0 ⟨[], [], true⟩ 1 =
      some (⟨[], [], true⟩, [some ⟨[], [], true⟩, some ⟨[], [], true⟩], []) :=
  fan_empty_noop _ 0 1 _ ⟨[], [], true⟩ rfl (by decide) rfl rfl

/-! ### Claim C1: a drain error marks the token stale, but does NOT stop
relay handling — `fan_out` is still attempted for that token in the same
event (proxy.rs:112–119 fall through from the `Err` arm to the link check) -/

/-- C1 counterexample: token 0 (buffered bytes `[7]`, linked to token 1)
gets a readable event whose drain fails.  The token is marked stale, yet
`fan_out` still runs: the peer's outbound buffer receives `[7]` and the peer
is re-registered — contradicting "relay handling stops immediately, FanOut is
not attempted". -/
theorem drain_err_cex :
    procEvent
      { srv := { pumps := [some ⟨[7], [], true⟩, some ⟨[], [], true⟩],
                 links := [(0, 1), (1, 0)], detached := [] },
        stale := [], newPeers := [], log := [] }
      { token := 0, readable := true, writable := false, hup := false,
        isErr := false, drain := DrainRes.er, flush := none, acc := none } =
    StepOut.cont
      { srv := { pumps := [some ⟨[], [], true⟩, some ⟨[], [7], true⟩],
                 links := [(0, 1), (1, 0)], detached := [] },
        stale := [0], newPeers := [],
        log := [PollOp.rereg 1, PollOp.rereg 0] } ∧
    (some ⟨[], [7], true⟩ : Option Pump) ≠ some ⟨[], [], true⟩ ∧
    PollOp.rereg 1 ∈ [PollOp.rereg 1, PollOp.rereg 0] ∧
    (0 : Nat) ∈ [0] := by
  refine ⟨by decide, by decide, by decide, by decide⟩

/-- C1 as amended: when a readable event's drain call fails, the token is
marked stale, but relay handling for the event continues — `fan_out` to a
linked peer is still attempted with the token's buffered bytes, and the peer
is re-registered. -/
theorem drain_err_marks_stale_still_fans_out
    (a : Acc) (ev : Ev) (p peer : Pump) (pt : Nat)
    (hroot : ev.token ≠ rootToken)
    (hget : slabGet a.srv.pumps ev.token = some p)
    (hr : ev.readable = true)
    (hd : ev.drain = DrainRes.er)
    (hlink : lookupLink a.srv.links ev.token = some pt)
    (hne : pt ≠ ev.token)
    (hpeer : slabGet a.srv.pumps pt = some peer)
    (hbuf : p.inBuf ≠ [])
    (hw : ev.writable = false) (hh : ev.hup = false) (he : ev.isErr = false) :
    procEvent a ev = StepOut.cont
      { srv := { a.srv with
          pumps := slabSet (slabSet a.srv.pumps pt (some (peer.push p.inBuf)))
                     ev.token (some { p with inBuf := [] }) },
        stale := insTok a.stale ev.token,
        newPeers := a.newPeers,
        log := a.log ++ [PollOp.rereg pt] ++ [] ++ [PollOp.rereg ev.token] } ∧
    ev.token ∈ insTok a.stale ev.token ∧
    slabGet (slabSet (slabSet a.srv.pumps pt (some (peer.push p.inBuf)))
              ev.token (some { p with inBuf := [] })) pt =
      some (peer.push p.inBuf) := by
  have hbe : p.inBuf.isEmpty = false := by
    cases hb : p.inBuf with
    | nil => exact absurd hb hbuf
    | cons x xs => rfl
  have hfan : fanOut a.srv.pumps ev.token p pt =
      some ({ p with inBuf := [] },
            slabSet a.srv.pumps pt (some (peer.push p.inBuf)), [PollOp.rereg pt]) := by
    simp only [fanOut, Pump.pull, hbe, Bool.false_eq_true, if_false, if_neg hne, hpeer]
  constructor
  · simp only [procEvent, if_neg hroot, hget, readPhase, hr, if_true, drainStep, hd,
      hlink, hfan, writePhase, hw, Bool.false_eq_true, if_false, hh, he]
  · constructor
    · exact self_mem_insTok _ _
    · rw [slabGet_slabSet_ne _ (fun hh2 => hne hh2.symm)]
      exact slabGet_slabSet_self _ (slabGet_isSome_lt (by rw [hpeer]; rfl))

/-- C1 amended witness. -/
theorem drain_err_marks_stale_still_fans_out_w :
    procEvent
      { srv := { pumps := [some ⟨[9], [], true⟩, some ⟨[], [], true⟩],
                 links := [(0, 1), (1, 0)], detached := [] },
        stale := [], newPeers := [], log := [] }
      { token := 0, readable := true, writable := false, hup := false,
        isErr := false, drain := DrainRes.er, flush := none, acc := none } =
    StepOut.cont
      { srv := { pumps := slabSet (slabSet [some ⟨[9], [], true⟩, some ⟨[], [], true⟩]
                   1 (some (Pump.push ⟨[], [], true⟩ [9]))) 0 (some ⟨[], [], true⟩),
                 links := [(0, 1), (1, 0)], detached := [] },
        stale := insTok [] 0, newPeers := [],
        log := [] ++ [PollOp.rereg 1] ++ [] ++ [PollOp.rereg 0] } ∧
    (0 : Nat) ∈ insTok [] 0 ∧
    slabGet (slabSet (slabSet [some ⟨[9], [], true⟩, some ⟨[], [], true⟩]
              1 (some (Pump.push ⟨[], [], true⟩ [9]))) 0 (some ⟨[], [], true⟩)) 1 =
      some (Pump.push ⟨[], [], true⟩ [9]) :=
  drain_err_marks_stale_still_fans_out _ _ ⟨[9], [], true⟩ ⟨[], [], true⟩ 1
    (by decide) rfl rfl rfl rfl (by decide) rfl (by decide) rfl rfl rfl

/-! ### Claim C2: the accept capacity guard is strict -/

theorem firstVacant_replicate (n : Nat) (p : Pump) :
    firstVacant (List.replicate n (some p)) = none := by
  induction n with
  | zero => rfl
  | succ n ih => simp [List.replicate_succ, firstVacant, ih]

theorem slabLen_cons (c : Option Pump) (l : List (Option Pump)) :
    slabLen (c :: l) = slabLen l + if c.isSome then 1 else 0 := by
  simp [slabLen, List.countP_cons]

theorem slabLen_append (l1 l2 : List (Option Pump)) :
    slabLen (l1 ++ l2) = slabLen l1 + slabLen l2 := by
  simp [slabLen, List.countP_append]

theorem slabLen_replicate (n : Nat) (p : Pump) :
    slabLen (List.replicate n (some p)) = n := by
  induction n with
  | zero => rfl
  | succ n ih => rw [List.replicate_succ, slabLen_cons, ih]; rfl

theorem slabLen_set_vacant {l : List (Option Pump)} {i : Nat} (p : Pump)
    (h1 : i < l.length) (h2 : slabGet l i = none) :
    slabLen (slabSet l i (some p)) = slabLen l + 1 := by
  induction l generalizing i with
  | nil => simp at h1
  | cons c rest ih =>
    cases i with
    | zero =>
      have hc : c = none := h2
      subst hc
      simp [slabSet, slabLen_cons]
    | succ i =>
      have := ih (by simpa using h1) h2
      simp [slabSet, slabLen_cons, this]
      omega

theorem slabLen_insert (l : List (Option Pump)) (p : Pump) :
    slabLen (slabInsert l p).1 = slabLen l + 1 := by
  unfold slabInsert
  cases hv : firstVacant l with
  | none => simp [slabLen_append]; rfl
  | some i =>
    obtain ⟨h1, h2⟩ := firstVacant_some hv
    exact slabLen_set_vacant p h1 h2

theorem accept_append_full (l : List (Option Pump)) (p : Pump)
    (hv : firstVacant l = none) (hlen : ¬ slabLen l > MAX_PUMPS) :
    Server.accept { pumps := l, links := [], detached := [] } (some p) =
      ({ pumps := l ++ [some p], links := [], detached := [] },
       [PollOp.reg l.length]) := by
  simp only [Server.accept]
  rw [if_neg hlen]
  simp only [slabInsert, hv]

/-- C2 counterexample: with exactly `MAX_PUMPS` live entries, `accept` does
NOT refuse — the guard in proxy.rs:186 is strict (`pumps.len() > MAX_PUMPS`),
so one more connection is admitted, appended as a new entry, giving
`MAX_PUMPS + 1` live entries. -/
theorem accept_at_capacity_cex :
    slabLen (List.replicate MAX_PUMPS (some ⟨[], [], true⟩)) = MAX_PUMPS ∧
    Server.accept
        { pumps := List.replicate MAX_PUMPS (some ⟨[], [], true⟩),
          links := [], detached := [] } (some ⟨[], [], true⟩) =
      ({ pumps := List.replicate MAX_PUMPS (some ⟨[], [], true⟩) ++ [some ⟨[], [], true⟩],
         links := [], detached := [] },
       [PollOp.reg MAX_PUMPS]) ∧
    slabLen (List.replicate MAX_PUMPS (some ⟨[], [], true⟩) ++ [some ⟨[], [], true⟩]) =
      MAX_PUMPS + 1 := by
  refine ⟨slabLen_replicate _ _, ?_, ?_⟩
  · have h := accept_append_full (List.replicate MAX_PUMPS (some ⟨[], [], true⟩))
      ⟨[], [], true⟩ (firstVacant_replicate _ _) (by rw [slabLen_replicate]; omega)
    rw [List.length_replicate] at h
    exact h
  · rw [slabLen_append, slabLen_replicate]
    rfl

/-- C2 as amended: `accept` refuses (and touches nothing) only when the
registry holds strictly more than `MAX_PUMPS` entries; at or below
`MAX_PUMPS` entries an accepted connection is admitted: a previously vacant
slot receives the new pump, it is registered, the count grows by one, and
every other slot is unchanged. -/
theorem accept_threshold (s : Server) (r : Option Pump) (p : Pump) (u : Nat) :
    (slabLen s.pumps > MAX_PUMPS → Server.accept s r = (s, [])) ∧
    (slabLen s.pumps ≤ MAX_PUMPS →
      Server.accept s (some p) =
        ({ s with pumps := (slabInsert s.pumps p).1 },
         [PollOp.reg (slabInsert s.pumps p).2]) ∧
      slabGet s.pumps (slabInsert s.pumps p).2 = none ∧
      slabGet (slabInsert s.pumps p).1 (slabInsert s.pumps p).2 = some p ∧
      slabLen (slabInsert s.pumps p).1 = slabLen s.pumps + 1) ∧
    (u ≠ (slabInsert s.pumps p).2 →
      slabGet (slabInsert s.pumps p).1 u = slabGet s.pumps u) := by
  refine ⟨?_, ?_, fun hu => slabInsert_get_other _ _ hu⟩
  · intro h
    simp [Server.accept, h]
  · intro h
    refine ⟨?_, slabInsert_get_old _ _, slabInsert_get_new _ _, slabLen_insert _ _⟩
    simp only [Server.accept]
    rw [if_neg (by omega)]

/-- C2 amended witness. -/
theorem accept_threshold_w :
    Server.accept
        { pumps := List.replicate (MAX_PUMPS + 1) (some ⟨[], [], true⟩),
          links := [], detached := [] } none =
      ({ pumps := List.replicate (MAX_PUMPS + 1) (some ⟨[], [], true⟩),
         links := [], detached := [] }, []) ∧
    Server.accept { pumps := [none], links := [], detached := [] } (some ⟨[], [], true⟩) =
      ({ pumps := (slabInsert [none] ⟨[], [], true⟩).1, links := [], detached := [] },
       [PollOp.reg (slabInsert [none] ⟨[], [], true⟩).2]) ∧
    slabGet (slabInsert [none] ⟨[], [], true⟩).1 5 = slabGet [none] 5 :=
  ⟨(accept_threshold _ none ⟨[], [], true⟩ 5).1
      (by rw [slabLen_replicate]; omega),
   ((accept_threshold { pumps := [none], links := [], detached := [] }
      none ⟨[], [], true⟩ 5).2.1 (by decide)).1,
   (accept_threshold { pumps := [none], links := [], detached := [] }
      none ⟨[], [], true⟩ 5).2.2 (by decide)⟩

/-! ### Claim C4: partner detachment on drop, and when detached tokens are
reaped -/

theorem scanDetached_marks_only_writeidle {pumps : List (Option Pump)}
    {dl out : List Nat} (h : scanDetached pumps dl = some out) :
    ∀ u ∈ out, (slabGet pumps u).map Pump.wantsWrite = some false := by
  induction dl generalizing out with
  | nil =>
    simp only [scanDetached] at h
    cases h
    intro u hu
    simp at hu
  | cons t rest ih =>
    cases hget : slabGet pumps t with
    | none =>
      simp only [scanDetached, hget] at h
      exact Option.noConfusion h
    | some p =>
      cases hrec : scanDetached pumps rest with
      | none =>
        simp only [scanDetached, hget, hrec] at h
        exact Option.noConfusion h
      | some out' =>
        simp only [scanDetached, hget, hrec] at h
        intro u hu
        by_cases hw : p.wantsWrite = true
        · rw [if_pos hw] at h
          cases h
          exact ih hrec u hu
        · rw [if_neg hw] at h
          cases h
          rcases List.mem_cons.1 hu with rfl | hu'
          · rw [hget]
            simp only [Option.map_some']
            simp only [Bool.not_eq_true] at hw
            rw [hw]
          · exact ih hrec u hu'

/-- C4 counterexample: a detached token whose pump still has pending
outbound data (`wantsWrite = true`) receives a hangup event and is dropped
in that same cycle — contradicting "a detached token is only dropped once
its connection no longer reports write interest". -/
theorem detached_dropped_while_writable_cex :
    Pump.wantsWrite ⟨[], [5], true⟩ = true ∧
    (0 : Nat) ∈ Server.detached
      { pumps := [some ⟨[], [5], true⟩], links := [], detached := [0] } ∧
    dispatch { pumps := [some ⟨[], [5], true⟩], links := [], detached := [0] }
      [{ token := 0, readable := false, writable := false, hup := true,
         isErr := false, drain := DrainRes.quiet [], flush := none, acc := none }] =
      some ({ pumps := [none], links := [], detached := [] }, [PollOp.dereg 0]) :=
  ⟨rfl, by decide, by decide⟩

/-- C4 as amended: dropping a linked token never removes the partner's
registry slot in the same drop — the partner's slot is untouched and the
partner is placed in the detached set; and the end-of-cycle reconciliation
scan marks a detached token stale only when its pump no longer reports write
interest.  (A detached token can still be dropped in the same cycle for its
own failures — hangup, error, drain/flush failure — even with pending
outbound data; see the counterexample.) -/
theorem drop_linked_detaches_partner
    (s : Server) (t pt : Nat) (s' : Server) (op : PollOp)
    (pumps : List (Option Pump)) (dl out : List Nat)
    (hdrop : dropPump s t = some (s', op))
    (hlink : lookupLink s.links t = some pt)
    (hne : pt ≠ t)
    (hscan : scanDetached pumps dl = some out) :
    (slabGet s'.pumps pt = slabGet s.pumps pt ∧ pt ∈ s'.detached ∧
      op = PollOp.dereg t) ∧
    (∀ u ∈ out, (slabGet pumps u).map Pump.wantsWrite = some false) := by
  refine ⟨?_, scanDetached_marks_only_writeidle hscan⟩
  cases hget : slabGet s.pumps t with
  | none => simp [dropPump, hget] at hdrop
  | some q =>
    simp only [dropPump, hget, hlink] at hdrop
    have hinj := Option.some.inj hdrop
    have hs : s' = Server.mk (slabSet s.pumps t none)
        (linksRemove (linksRemove s.links t) pt)
        (insTok (removeTok s.detached t) pt) :=
      (congrArg Prod.fst hinj).symm
    have hop : op = PollOp.dereg t := (congrArg Prod.snd hinj).symm
    subst hs
    subst hop
    exact ⟨slabGet_slabSet_ne _ (fun hh => hne hh.symm),
      self_mem_insTok _ _, rfl⟩

/-! ### Monotonicity and characterization lemmas for the dispatch phases -/

theorem pumpsMono_refl (l : List (Option Pump)) : pumpsMono l l :=
  fun _ h => h

theorem pumpsMono_trans {l1 l2 l3 : List (Option Pump)}
    (h1 : pumpsMono l1 l2) (h2 : pumpsMono l2 l3) : pumpsMono l1 l3 :=
  fun t h => h2 t (h1 t h)

theorem pumpsMono_set_some (l : List (Option Pump)) (t : Nat) (p : Pump) :
    pumpsMono l (slabSet l t (some p)) :=
  fun _ h => isSome_slabSet_some t p h

theorem pumpsMono_insert (l : List (Option Pump)) (p : Pump) :
    pumpsMono l (slabInsert l p).1 :=
  fun _ h => isSome_slabInsert p h

theorem lookup_none_of_not_isSome {s : Server} (hlk : LinksOK s) {a : Nat}
    (ha : ¬ (slabGet s.pumps a).isSome = true) : lookupLink s.links a = none := by
  cases hl : lookupLink s.links a with
  | none => rfl
  | some b => exact absurd ((hlk.2.2 _ (lookupLink_mem hl)).1) ha

theorem LinksOK.lookup_sym {s : Server} (h : LinksOK s) {a b : Nat}
    (hl : lookupLink s.links a = some b) : lookupLink s.links b = some a :=
  h.1 _ (lookupLink_mem hl)

theorem LinksOK.lookup_ne {s : Server} (h : LinksOK s) {a b : Nat}
    (hl : lookupLink s.links a = some b) : a ≠ b :=
  h.2.1 _ (lookupLink_mem hl)

theorem LinksOK.lookup_live {s : Server} (h : LinksOK s) {a b : Nat}
    (hl : lookupLink s.links a = some b) : (slabGet s.pumps b).isSome = true :=
  (h.2.2 _ (lookupLink_mem hl)).2

theorem LinksOK.mono {s : Server} {pumps' : List (Option Pump)} (h : LinksOK s)
    (hm : pumpsMono s.pumps pumps') : LinksOK { s with pumps := pumps' } :=
  ⟨h.1, h.2.1, fun kv hkv =>
    ⟨hm _ (h.2.2 kv hkv).1, hm _ (h.2.2 kv hkv).2⟩⟩

theorem forall_insTok {l : List Nat} {x : Nat} {P : Nat → Prop}
    (h : ∀ t ∈ l, P t) (hx : P x) : ∀ t ∈ insTok l x, P t := by
  intro t ht
  rcases mem_insTok.1 ht with h1 | rfl
  · exact h _ h1
  · exact hx

theorem forall_assocInsert {np : List (Nat × Pump)} {k : Nat} {v : Pump}
    {P : Nat × Pump → Prop} (h : ∀ kv ∈ np, P kv) (hk : P (k, v)) :
    ∀ kv ∈ assocInsert np k v, P kv := by
  intro kv hkv
  rcases mem_assocInsert hkv with rfl | h1
  · exact hk
  · exact h _ h1

/-- Exhaustive result characterization of `fanOut` at a live, distinct peer. -/
theorem fanOut_cases {pumps : List (Option Pump)} {tok pt : Nat} (p : Pump)
    (hne : pt ≠ tok) {peer : Pump} (hpeer : slabGet pumps pt = some peer) :
    (p.inBuf = [] ∧
      fanOut pumps tok p pt = some ({ p with inBuf := [] }, pumps, [])) ∨
    (p.inBuf ≠ [] ∧
      fanOut pumps tok p pt =
        some ({ p with inBuf := [] }, slabSet pumps pt (some (peer.push p.inBuf)),
          [PollOp.rereg pt])) := by
  cases hb : p.inBuf with
  | nil =>
    left
    refine ⟨rfl, ?_⟩
    simp only [fanOut, Pump.pull, hb]
    rfl
  | cons x xs =>
    right
    refine ⟨by simp, ?_⟩
    simp only [fanOut, Pump.pull, hb, List.isEmpty_cons, Bool.false_eq_true, if_false,
      if_neg hne, hpeer]

/-- Exhaustive result characterization of `fanIn` at a live, distinct peer. -/
theorem fanIn_cases {pumps : List (Option Pump)} {tok pt : Nat} (p : Pump)
    (hne : pt ≠ tok) {peer : Pump} (hpeer : slabGet pumps pt = some peer) :
    (peer.inBuf = [] ∧
      fanIn pumps tok p pt =
        some (p, slabSet pumps pt (some { peer with inBuf := [] }), [])) ∨
    (peer.inBuf ≠ [] ∧
      fanIn pumps tok p pt =
        some (p.push peer.inBuf, slabSet pumps pt (some { peer with inBuf := [] }),
          [PollOp.rereg pt])) := by
  cases hb : peer.inBuf with
  | nil =>
    left
    refine ⟨rfl, ?_⟩
    simp only [fanIn, if_neg hne, hpeer, Pump.pull, hb]
    rfl
  | cons x xs =>
    right
    refine ⟨by simp, ?_⟩
    simp only [fanIn, if_neg hne, hpeer, Pump.pull, hb, List.isEmpty_cons,
      Bool.false_eq_true, if_false]

/-- Properties of the drain arm: the produced stale set and `new_peers` map
only contain live tokens, stay duplicate-free, and any new pairing stems
from a routing decision for the current token. -/
theorem drainStep_spec {pumps : List (Option Pump)} {tok : Nat} {dr : DrainRes}
    (p : Pump) (stale : List Nat) (np : List (Nat × Pump))
    (htl : (slabGet pumps tok).isSome = true)
    (hsl : ∀ t ∈ stale, (slabGet pumps t).isSome = true)
    (hsn : stale.Nodup)
    (hnl : ∀ kv ∈ np, (slabGet pumps kv.1).isSome = true)
    (hnk : (np.map Prod.fst).Nodup) :
    (∀ t ∈ (drainStep tok dr p stale np).2.1, (slabGet pumps t).isSome = true) ∧
    (drainStep tok dr p stale np).2.1.Nodup ∧
    (∀ kv ∈ (drainStep tok dr p stale np).2.2, (slabGet pumps kv.1).isSome = true) ∧
    ((drainStep tok dr p stale np).2.2.map Prod.fst).Nodup ∧
    (∀ kv ∈ (drainStep tok dr p stale np).2.2,
      kv ∈ np ∨ (kv.1 = tok ∧ ∃ bs pr, dr = DrainRes.route bs pr)) := by
  cases dr with
  | er =>
    exact ⟨forall_insTok hsl htl, insTok_nodup hsn, hnl, hnk,
      fun kv hkv => Or.inl hkv⟩
  | quiet bs =>
    exact ⟨hsl, hsn, hnl, hnk, fun kv hkv => Or.inl hkv⟩
  | route bs pr =>
    cases pr with
    | some peer =>
      simp only [drainStep]
      refine ⟨hsl, hsn, ?_, assocInsert_keysNodup hnk, ?_⟩
      · exact forall_assocInsert hnl htl
      · intro kv hkv
        rcases mem_assocInsert hkv with rfl | h1
        · exact Or.inr ⟨rfl, bs, some peer, rfl⟩
        · exact Or.inl h1
    | none =>
      exact ⟨forall_insTok hsl htl, insTok_nodup hsn, hnl, hnk,
        fun kv hkv => Or.inl hkv⟩

/-- Full characterization of the readable facet: it never panics when the
link table is consistent, the registry only changes monotonically (slots stay
live), links and detached set are untouched, stale/new-peer bookkeeping stays
well-formed, any re-registration it issues is for the linked peer (never the
current token), and if the token is unlinked the registry is unchanged. -/
theorem readPhase_spec {srv : Server} {ev : Ev} (p : Pump) (stale : List Nat)
    (np : List (Nat × Pump))
    (hlk : LinksOK srv)
    (htl : (slabGet srv.pumps ev.token).isSome = true)
    (hsl : ∀ t ∈ stale, (slabGet srv.pumps t).isSome = true)
    (hsn : stale.Nodup)
    (hnl : ∀ kv ∈ np, (slabGet srv.pumps kv.1).isSome = true)
    (hnk : (np.map Prod.fst).Nodup) :
    ∃ p1 srv1 stale1 np1 lg1,
      readPhase srv ev p stale np = some (p1, srv1, stale1, np1, lg1) ∧
      srv1.links = srv.links ∧ srv1.detached = srv.detached ∧
      pumpsMono srv.pumps srv1.pumps ∧
      (∀ t ∈ stale1, (slabGet srv1.pumps t).isSome = true) ∧
      stale1.Nodup ∧
      (∀ kv ∈ np1, (slabGet srv1.pumps kv.1).isSome = true) ∧
      (np1.map Prod.fst).Nodup ∧
      (∀ kv ∈ np1, kv ∈ np ∨
        (kv.1 = ev.token ∧ ev.readable = true ∧
          ∃ bs pr, ev.drain = DrainRes.route bs pr)) ∧
      (∀ op ∈ lg1, ∃ pt2, op = PollOp.rereg pt2 ∧ pt2 ≠ ev.token) ∧
      (lookupLink srv.links ev.token = none → srv1 = srv) := by
  by_cases hr : ev.readable = true
  · obtain ⟨hsl1, hsn1, hnl1, hnk1, hnp1⟩ :=
      @drainStep_spec srv.pumps ev.token ev.drain p stale np htl hsl hsn hnl hnk
    rcases hds : drainStep ev.token ev.drain p stale np with ⟨p1, stale1, np1⟩
    rw [hds] at hsl1 hsn1 hnl1 hnk1 hnp1
    simp only at hsl1 hsn1 hnl1 hnk1 hnp1
    have hnp1' : ∀ kv ∈ np1, kv ∈ np ∨
        (kv.1 = ev.token ∧ ev.readable = true ∧
          ∃ bs pr, ev.drain = DrainRes.route bs pr) := by
      intro kv hkv
      rcases hnp1 kv hkv with h1 | ⟨h1, h2⟩
      · exact Or.inl h1
      · exact Or.inr ⟨h1, hr, h2⟩
    cases hl : lookupLink srv.links ev.token with
    | none =>
      refine ⟨p1, srv, stale1, np1, [], ?_, rfl, rfl, pumpsMono_refl _,
        hsl1, hsn1, hnl1, hnk1, hnp1', ?_, fun _ => rfl⟩
      · simp only [readPhase, hr, if_true, hds, hl]
      · intro op hop
        simp at hop
    | some pt =>
      have hne : pt ≠ ev.token := Ne.symm (hlk.lookup_ne hl)
      have hlive : (slabGet srv.pumps pt).isSome = true := hlk.lookup_live hl
      obtain ⟨peer, hpeer⟩ := Option.isSome_iff_exists.1 hlive
      rcases fanOut_cases p1 hne hpeer with ⟨hb, heq⟩ | ⟨hb, heq⟩
      · refine ⟨{ p1 with inBuf := [] }, { srv with pumps := srv.pumps }, stale1,
          np1, [], ?_, rfl, rfl, pumpsMono_refl _, hsl1, hsn1, hnl1, hnk1, hnp1', ?_, ?_⟩
        · simp only [readPhase, hr, if_true, hds, hl, heq]
        · intro op hop
          simp at hop
        · intro h
          exact Option.noConfusion h
      · refine ⟨{ p1 with inBuf := [] },
          { srv with pumps := slabSet srv.pumps pt (some (peer.push p1.inBuf)) },
          stale1, np1, [PollOp.rereg pt], ?_, rfl, rfl, pumpsMono_set_some _ _ _,
          ?_, hsn1, ?_, hnk1, hnp1', ?_, ?_⟩
        · simp only [readPhase, hr, if_true, hds, hl, heq]
        · exact fun t ht => pumpsMono_set_some _ _ _ _ (hsl1 t ht)
        · exact fun kv hkv => pumpsMono_set_some _ _ _ _ (hnl1 kv hkv)
        · intro op hop
          rw [List.mem_singleton] at hop
          exact ⟨pt, hop, hne⟩
        · intro h
          exact Option.noConfusion h
  · rw [Bool.not_eq_true] at hr
    refine ⟨p, srv, stale, np, [], ?_, rfl, rfl, pumpsMono_refl _,
      hsl, hsn, hnl, hnk, fun kv hkv => Or.inl hkv, ?_, fun _ => rfl⟩
    · simp only [readPhase, hr, Bool.false_eq_true, if_false]
    · intro op hop
      simp at hop

/-- Full characterization of the writable facet: it never panics when the
link table is consistent; the flag is `false` exactly on a flush failure of
a writable event, in which case the token has been marked stale; any
re-registration it issues is for the linked peer. -/
theorem writePhase_spec {srv : Server} {ev : Ev} (p : Pump) (stale : List Nat)
    (hlk : LinksOK srv)
    (htl : (slabGet srv.pumps ev.token).isSome = true)
    (hsl : ∀ t ∈ stale, (slabGet srv.pumps t).isSome = true)
    (hsn : stale.Nodup) :
    ∃ go p2 srv2 stale2 lg2,
      writePhase srv ev p stale = some (go, p2, srv2, stale2, lg2) ∧
      srv2.links = srv.links ∧ srv2.detached = srv.detached ∧
      pumpsMono srv.pumps srv2.pumps ∧
      (∀ t ∈ stale2, (slabGet srv2.pumps t).isSome = true) ∧
      stale2.Nodup ∧
      (go = false → ev.token ∈ stale2 ∧ ev.writable = true ∧ ev.flush = none) ∧
      (go = true → stale2 = stale) ∧
      (ev.writable = true → ev.flush = none → go = false) ∧
      (∀ op ∈ lg2, ∃ pt2, op = PollOp.rereg pt2 ∧ pt2 ≠ ev.token) ∧
      (lookupLink srv.links ev.token = none → srv2 = srv) := by
  by_cases hw : ev.writable = true
  · cases hl : lookupLink srv.links ev.token with
    | none =>
      cases hf : ev.flush with
      | some n =>
        refine ⟨true, p.doFlush n, srv, stale, [], ?_, rfl, rfl, pumpsMono_refl _,
          hsl, hsn, ?_, fun _ => rfl, ?_, ?_, fun _ => rfl⟩
        · simp only [writePhase, hw, if_true, hl, hf]
        · intro h
          exact Bool.noConfusion h
        · intro _ hf2
          exact Option.noConfusion hf2
        · intro op hop
          simp at hop
      | none =>
        refine ⟨false, p, srv, insTok stale ev.token, [], ?_, rfl, rfl,
          pumpsMono_refl _, ?_, insTok_nodup hsn, ?_, ?_, fun _ _ => rfl, ?_,
          fun _ => rfl⟩
        · simp only [writePhase, hw, if_true, hl, hf]
        · exact forall_insTok hsl htl
        · exact fun _ => ⟨self_mem_insTok _ _, hw, rfl⟩
        · intro h
          exact Bool.noConfusion h
        · intro op hop
          simp at hop
    | some pt =>
      have hne : pt ≠ ev.token := Ne.symm (hlk.lookup_ne hl)
      have hlive : (slabGet srv.pumps pt).isSome = true := hlk.lookup_live hl
      obtain ⟨peer, hpeer⟩ := Option.isSome_iff_exists.1 hlive
      rcases fanIn_cases p hne hpeer with ⟨hb, heq⟩ | ⟨hb, heq⟩
      · cases hf : ev.flush with
        | some n =>
          refine ⟨true, Pump.doFlush p n,
            { srv with pumps := slabSet srv.pumps pt (some { peer with inBuf := [] }) },
            stale, [], ?_, rfl, rfl, pumpsMono_set_some _ _ _,
            fun t ht => pumpsMono_set_some _ _ _ _ (hsl t ht), hsn,
            ?_, fun _ => rfl, ?_, ?_, fun h => Option.noConfusion h⟩
          · simp only [writePhase, hw, if_true, hl, heq, hf]
          · intro h
            exact Bool.noConfusion h
          · intro _ hf2
            exact Option.noConfusion hf2
          · intro op hop
            simp at hop
        | none =>
          refine ⟨false, p,
            { srv with pumps := slabSet srv.pumps pt (some { peer with inBuf := [] }) },
            insTok stale ev.token, [], ?_, rfl, rfl, pumpsMono_set_some _ _ _,
            ?_, insTok_nodup hsn, fun _ => ⟨self_mem_insTok _ _, hw, rfl⟩,
            ?_, fun _ _ => rfl, ?_, fun h => Option.noConfusion h⟩
          · simp only [writePhase, hw, if_true, hl, heq, hf]
          · refine forall_insTok (fun t ht => pumpsMono_set_some _ _ _ _ (hsl t ht)) ?_
            exact pumpsMono_set_some _ _ _ _ htl
          · intro h
            exact Bool.noConfusion h
          · intro op hop
            simp at hop
      · cases hf : ev.flush with
        | some n =>
          refine ⟨true, Pump.doFlush (p.push peer.inBuf) n,
            { srv with pumps := slabSet srv.pumps pt (some { peer with inBuf := [] }) },
            stale, [PollOp.rereg pt], ?_, rfl, rfl, pumpsMono_set_some _ _ _,
            fun t ht => pumpsMono_set_some _ _ _ _ (hsl t ht), hsn,
            ?_, fun _ => rfl, ?_, ?_, fun h => Option.noConfusion h⟩
          · simp only [writePhase, hw, if_true, hl, heq, hf]
          · intro h
            exact Bool.noConfusion h
          · intro _ hf2
            exact Option.noConfusion hf2
          · intro op hop
            rw [List.mem_singleton] at hop
            exact ⟨pt, hop, hne⟩
        | none =>
          refine ⟨false, p.push peer.inBuf,
            { srv with pumps := slabSet srv.pumps pt (some { peer with inBuf := [] }) },
            insTok stale ev.token, [PollOp.rereg pt], ?_, rfl, rfl,
            pumpsMono_set_some _ _ _,
            ?_, insTok_nodup hsn, fun _ => ⟨self_mem_insTok _ _, hw, rfl⟩,
            ?_, fun _ _ => rfl, ?_, fun h => Option.noConfusion h⟩
          · simp only [writePhase, hw, if_true, hl, heq, hf]
          · refine forall_insTok (fun t ht => pumpsMono_set_some _ _ _ _ (hsl t ht)) ?_
            exact pumpsMono_set_some _ _ _ _ htl
          · intro h
            exact Bool.noConfusion h
          · intro op hop
            rw [List.mem_singleton] at hop
            exact ⟨pt, hop, hne⟩
  · rw [Bool.not_eq_true] at hw
    refine ⟨true, p, srv, stale, [], ?_, rfl, rfl, pumpsMono_refl _, hsl, hsn,
      ?_, fun _ => rfl, ?_, ?_, fun _ => rfl⟩
    · simp only [writePhase, hw, Bool.false_eq_true, if_false]
    · intro h
      exact Bool.noConfusion h
    · intro hw2
      rw [hw] at hw2
      exact Bool.noConfusion hw2
    · intro op hop
      simp at hop

theorem accept_spec (s : Server) (r : Option Pump) :
    ∃ pumps' lg, Server.accept s r = ({ s with pumps := pumps' }, lg) ∧
      pumpsMono s.pumps pumps' := by
  by_cases hc : slabLen s.pumps > MAX_PUMPS
  · exact ⟨s.pumps, [], by simp [Server.accept, hc], pumpsMono_refl _⟩
  · cases r with
    | none => exact ⟨s.pumps, [], by simp [Server.accept, hc], pumpsMono_refl _⟩
    | some p =>
      refine ⟨(slabInsert s.pumps p).1, [PollOp.reg (slabInsert s.pumps p).2],
        ?_, pumpsMono_insert _ _⟩
      simp [Server.accept, hc]

theorem LinksOK.transfer {s0 s1 : Server} (h : LinksOK s0)
    (hl : s1.links = s0.links) (hm : pumpsMono s0.pumps s1.pumps) : LinksOK s1 := by
  refine ⟨?_, ?_, ?_⟩
  · rw [hl]
    exact h.1
  · rw [hl]
    exact h.2.1
  · rw [hl]
    exact fun kv hkv => ⟨hm _ (h.2.2 kv hkv).1, hm _ (h.2.2 kv hkv).2⟩

theorem evRouteOK_route {links : List (Nat × Nat)} {ev : Ev}
    (h : evRouteOK links ev = true) (hroot : ev.token ≠ rootToken)
    (hr : ev.readable = true) {bs : List Byte} {pr : Option Pump}
    (hd : ev.drain = DrainRes.route bs pr) :
    lookupLink links ev.token = none := by
  simp only [evRouteOK, if_neg hroot, hr, if_true, hd] at h
  exact Option.isNone_iff_eq_none.1 h

/-- One event's handling preserves the intra-batch invariant and never
panics, given the state invariant and the pump contract for this event. -/
theorem procEvent_spec {s0 : Server} {a : Acc} {ev : Ev}
    (hin : Inv s0) (hb : BatchOK s0 a) (hwf : evRouteOK s0.links ev = true) :
    procEvent a ev ≠ StepOut.panic ∧
    (∀ a1, procEvent a ev = StepOut.cont a1 → BatchOK s0 a1) ∧
    (∀ a1, procEvent a ev = StepOut.halt a1 → BatchOK s0 a1) := by
  by_cases hroot : ev.token = rootToken
  · obtain ⟨pumps', lg, heq, hm⟩ := accept_spec a.srv ev.acc
    have hpe : procEvent a ev = StepOut.cont
        { a with srv := { a.srv with pumps := pumps' }, log := a.log ++ lg } := by
      simp only [procEvent, if_pos hroot, heq]
    refine ⟨by rw [hpe]; exact fun h => StepOut.noConfusion h, ?_, ?_⟩
    · intro a1 h1
      rw [hpe] at h1
      cases h1
      exact { links_eq := hb.links_eq, det_eq := hb.det_eq,
              mono := pumpsMono_trans hb.mono hm,
              stale_live := fun t ht => hm _ (hb.stale_live t ht),
              stale_nodup := hb.stale_nodup,
              np_live := fun kv hkv => hm _ (hb.np_live kv hkv),
              np_unlinked := hb.np_unlinked,
              np_keys_nodup := hb.np_keys_nodup }
    · intro a1 h1
      rw [hpe] at h1
      exact StepOut.noConfusion h1
  · cases hget : slabGet a.srv.pumps ev.token with
    | none =>
      have hpe : procEvent a ev = StepOut.cont a := by
        simp only [procEvent, if_neg hroot, hget]
      refine ⟨by rw [hpe]; exact fun h => StepOut.noConfusion h, ?_, ?_⟩
      · intro a1 h1
        rw [hpe] at h1
        cases h1
        exact hb
      · intro a1 h1
        rw [hpe] at h1
        exact StepOut.noConfusion h1
    | some p =>
      have hlk : LinksOK a.srv := (hin.1).transfer hb.links_eq hb.mono
      have htl : (slabGet a.srv.pumps ev.token).isSome = true := by
        rw [hget]
        rfl
      obtain ⟨p1, srv1, stale1, np1, lg1, heq1, hl1, hd1, hm1, hsl1, hsn1,
        hnl1, hnk1, hnp1, hlg1, hnofan⟩ :=
        readPhase_spec p a.stale a.newPeers hlk htl hb.stale_live hb.stale_nodup
          hb.np_live hb.np_keys_nodup
      have hlk1 : LinksOK srv1 := hlk.transfer hl1 hm1
      have htl1 : (slabGet srv1.pumps ev.token).isSome = true := hm1 _ htl
      obtain ⟨go, p2, srv2, stale2, lg2, heq2, hl2, hd2, hm2, hsl2, hsn2,
        hgof, hgot, hfl, hlg2, hnofan2⟩ :=
        writePhase_spec p1 stale1 hlk1 htl1 hsl1 hsn1
      have hmono3 : pumpsMono s0.pumps (slabSet srv2.pumps ev.token (some p2)) :=
        pumpsMono_trans hb.mono (pumpsMono_trans hm1
          (pumpsMono_trans hm2 (pumpsMono_set_some _ _ _)))
      have hmono23 : pumpsMono srv1.pumps (slabSet srv2.pumps ev.token (some p2)) :=
        pumpsMono_trans hm2 (pumpsMono_set_some _ _ _)
      have hnp_unl : ∀ kv ∈ np1, lookupLink s0.links kv.1 = none := by
        intro kv hkv
        rcases hnp1 kv hkv with h1 | ⟨h1, hr, bs, pr, hd⟩
        · exact hb.np_unlinked kv h1
        · rw [h1]
          exact evRouteOK_route hwf hroot hr hd
      cases go with
      | true =>
        have hstale2 : stale2 = stale1 := hgot rfl
        have hpe : procEvent a ev = StepOut.cont
            { srv := { srv2 with pumps := slabSet srv2.pumps ev.token (some p2) },
              stale := (if ev.hup then (insTok stale2 ev.token, ([] : List PollOp))
                else if ev.isErr then (insTok stale2 ev.token, [])
                else (stale2, [PollOp.rereg ev.token])).1,
              newPeers := np1,
              log := a.log ++ lg1 ++ lg2 ++
                (if ev.hup then (insTok stale2 ev.token, ([] : List PollOp))
                else if ev.isErr then (insTok stale2 ev.token, [])
                else (stale2, [PollOp.rereg ev.token])).2 } := by
          simp only [procEvent, if_neg hroot, hget, heq1, heq2, if_true]
        refine ⟨by rw [hpe]; exact fun h => StepOut.noConfusion h, ?_, ?_⟩
        · intro a1 h1
          rw [hpe] at h1
          cases h1
          refine { links_eq := ?_, det_eq := ?_, mono := hmono3,
                   stale_live := ?_, stale_nodup := ?_,
                   np_live := fun kv hkv => hmono23 _ (hnl1 kv hkv),
                   np_unlinked := hnp_unl, np_keys_nodup := hnk1 }
          · show srv2.links = s0.links
            rw [hl2, hl1]
            exact hb.links_eq
          · show srv2.detached = s0.detached
            rw [hd2, hd1]
            exact hb.det_eq
          · show ∀ t ∈ (if ev.hup then (insTok stale2 ev.token, ([] : List PollOp))
                else if ev.isErr then (insTok stale2 ev.token, [])
                else (stale2, [PollOp.rereg ev.token])).1,
              (slabGet (slabSet srv2.pumps ev.token (some p2)) t).isSome = true
            have hbase : ∀ t ∈ stale2,
                (slabGet (slabSet srv2.pumps ev.token (some p2)) t).isSome = true :=
              fun t ht => pumpsMono_set_some _ _ _ _ (hsl2 t ht)
            have htok : (slabGet (slabSet srv2.pumps ev.token (some p2))
                ev.token).isSome = true :=
              pumpsMono_set_some _ _ _ _ (pumpsMono_trans hm1 hm2 _ htl)
            split_ifs with h1 h2
            · exact forall_insTok hbase htok
            · exact forall_insTok hbase htok
            · exact hbase
          · show (if ev.hup then (insTok stale2 ev.token, ([] : List PollOp))
                else if ev.isErr then (insTok stale2 ev.token, [])
                else (stale2, [PollOp.rereg ev.token])).1.Nodup
            split_ifs with h1 h2
            · exact insTok_nodup hsn2
            · exact insTok_nodup hsn2
            · exact hsn2
        · intro a1 h1
          rw [hpe] at h1
          exact StepOut.noConfusion h1
      | false =>
        have hpe : procEvent a ev = StepOut.halt
            { srv := { srv2 with pumps := slabSet srv2.pumps ev.token (some p2) },
              stale := stale2, newPeers := np1,
              log := a.log ++ lg1 ++ lg2 } := by
          simp only [procEvent, if_neg hroot, hget, heq1, heq2, Bool.false_eq_true,
            if_false]
        refine ⟨by rw [hpe]; exact fun h => StepOut.noConfusion h, ?_, ?_⟩
        · intro a1 h1
          rw [hpe] at h1
          exact StepOut.noConfusion h1
        · intro a1 h1
          rw [hpe] at h1
          cases h1
          refine { links_eq := ?_, det_eq := ?_, mono := hmono3,
                   stale_live := fun t ht => pumpsMono_set_some _ _ _ _ (hsl2 t ht),
                   stale_nodup := hsn2,
                   np_live := fun kv hkv => hmono23 _ (hnl1 kv hkv),
                   np_unlinked := hnp_unl, np_keys_nodup := hnk1 }
          · show srv2.links = s0.links
            rw [hl2, hl1]
            exact hb.links_eq
          · show srv2.detached = s0.detached
            rw [hd2, hd1]
            exact hb.det_eq

/-- The event loop preserves the intra-batch invariant and never panics. -/
theorem procEvents_spec {s0 : Server} {evs : List Ev} :
    ∀ {a : Acc}, Inv s0 → BatchOK s0 a →
    (∀ ev ∈ evs, evRouteOK s0.links ev = true) →
    ∃ a1, procEvents a evs = some a1 ∧ BatchOK s0 a1 := by
  induction evs with
  | nil =>
    intro a _ hb _
    exact ⟨a, rfl, hb⟩
  | cons ev rest ih =>
    intro a hin hb hwf
    obtain ⟨hnp, hcont, hhalt⟩ := procEvent_spec hin hb (hwf ev (List.mem_cons_self _ _))
    cases hpe : procEvent a ev with
    | panic => exact absurd hpe hnp
    | cont a1 =>
      obtain ⟨a2, h2, hb2⟩ := ih hin (hcont a1 hpe)
        (fun e he => hwf e (List.mem_cons_of_mem _ he))
      exact ⟨a2, by simp only [procEvents, hpe, h2], hb2⟩
    | halt a1 =>
      exact ⟨a1, by simp only [procEvents, hpe], hhalt a1 hpe⟩

theorem no_key_of_lookup_none {l : List (Nat × Nat)} {k : Nat}
    (h : lookupLink l k = none) : ∀ kv ∈ l, kv.1 ≠ k := by
  induction l with
  | nil => intro kv hkv; simp at hkv
  | cons kv' rest ih =>
    obtain ⟨k', v'⟩ := kv'
    simp only [lookupLink] at h
    by_cases hk : k' = k
    · rw [if_pos hk] at h
      exact Option.noConfusion h
    · rw [if_neg hk] at h
      intro kv hkv
      rcases List.mem_cons.1 hkv with rfl | hm
      · exact hk
      · exact ih h kv hm

theorem linksRemove_of_not_key {l : List (Nat × Nat)} {k : Nat}
    (h : lookupLink l k = none) : linksRemove l k = l := by
  induction l with
  | nil => rfl
  | cons kv rest ih =>
    obtain ⟨k', v'⟩ := kv
    simp only [lookupLink] at h
    by_cases hk : k' = k
    · rw [if_pos hk] at h
      exact Option.noConfusion h
    · rw [if_neg hk] at h
      simp only [linksRemove, if_neg hk, ih h]

theorem foldl_insTok_mem {l : List Nat} :
    ∀ {acc : List Nat} {x : Nat}, x ∈ l.foldl insTok acc ↔ x ∈ acc ∨ x ∈ l := by
  induction l with
  | nil => simp
  | cons y rest ih =>
    intro acc x
    rw [List.foldl_cons, ih, mem_insTok]
    simp only [List.mem_cons]
    tauto

theorem foldl_insTok_nodup {l : List Nat} :
    ∀ {acc : List Nat}, acc.Nodup → (l.foldl insTok acc).Nodup := by
  induction l with
  | nil => exact fun h => h
  | cons y rest ih =>
    intro acc h
    rw [List.foldl_cons]
    exact ih (insTok_nodup h)

/-- End-of-cycle pairing activation: every queued pairing is inserted at a
previously vacant slot, linked in both directions and registered; existing
links and the detached set are untouched, and slots only become live. -/
theorem applyNewPeers_spec {np : List (Nat × Pump)} :
    ∀ {s : Server}, LinksOK s → DetOK s →
    (∀ kv ∈ np, (slabGet s.pumps kv.1).isSome = true) →
    (∀ kv ∈ np, lookupLink s.links kv.1 = none) →
    (np.map Prod.fst).Nodup →
    ∃ s1 lg, applyNewPeers s np = (s1, lg) ∧
      LinksOK s1 ∧ DetOK s1 ∧ s1.detached = s.detached ∧
      pumpsMono s.pumps s1.pumps ∧
      (∀ a b, lookupLink s.links a = some b → lookupLink s1.links a = some b) ∧
      (∀ u, (slabGet s.pumps u).isSome = true →
        slabGet s1.pumps u = slabGet s.pumps u) ∧
      (∀ kv ∈ np, ∃ idx, slabGet s.pumps idx = none ∧
        lookupLink s1.links kv.1 = some idx ∧
        lookupLink s1.links idx = some kv.1 ∧
        (slabGet s1.pumps idx).isSome = true ∧ PollOp.reg idx ∈ lg) := by
  induction np with
  | nil =>
    intro s hlk hdet _ _ _
    refine ⟨s, [], rfl, hlk, hdet, rfl, pumpsMono_refl _,
      fun a b hab => hab, fun u _ => rfl, ?_⟩
    intro kv hkv
    simp at hkv
  | cons hd rest ih =>
    obtain ⟨tok, peer⟩ := hd
    intro s hlk hdet hnl hnu hnk
    have htok_live : (slabGet s.pumps tok).isSome = true :=
      hnl _ (List.mem_cons_self _ _)
    have htok_unl : lookupLink s.links tok = none :=
      hnu _ (List.mem_cons_self _ _)
    have hvac : slabGet s.pumps (slabInsert s.pumps peer).2 = none :=
      slabInsert_get_old _ _
    have hne : tok ≠ (slabInsert s.pumps peer).2 := by
      intro h
      rw [h, hvac] at htok_live
      exact Bool.noConfusion htok_live
    have hidx_unl : lookupLink s.links (slabInsert s.pumps peer).2 = none := by
      refine lookup_none_of_not_isSome hlk ?_
      rw [hvac]
      exact fun h => Bool.noConfusion h
    have hlinks1 : linksInsert (linksInsert s.links (slabInsert s.pumps peer).2 tok)
        tok (slabInsert s.pumps peer).2 =
        (tok, (slabInsert s.pumps peer).2) ::
          ((slabInsert s.pumps peer).2, tok) :: s.links := by
      simp only [linksInsert, linksRemove_of_not_key hidx_unl]
      have h2 : lookupLink (((slabInsert s.pumps peer).2, tok) :: s.links) tok = none := by
        have hne2 : (slabInsert s.pumps peer).2 ≠ tok := fun h => hne h.symm
        simp only [lookupLink, if_neg hne2, htok_unl]
      rw [linksRemove_of_not_key h2]
    have hval_tok : ∀ kv ∈ s.links, kv.2 ≠ tok := by
      intro kv hkv h2
      have h3 := hlk.1 kv hkv
      rw [h2, htok_unl] at h3
      exact Option.noConfusion h3
    have hval_idx : ∀ kv ∈ s.links, kv.2 ≠ (slabInsert s.pumps peer).2 := by
      intro kv hkv h2
      have h3 := hlk.1 kv hkv
      rw [h2, hidx_unl] at h3
      exact Option.noConfusion h3
    have hkey_tok : ∀ kv ∈ s.links, kv.1 ≠ tok := no_key_of_lookup_none htok_unl
    have hkey_idx : ∀ kv ∈ s.links, kv.1 ≠ (slabInsert s.pumps peer).2 :=
      no_key_of_lookup_none hidx_unl
    have hidx_live : (slabGet (slabInsert s.pumps peer).1
        (slabInsert s.pumps peer).2).isSome = true := by
      rw [slabInsert_get_new]
      rfl
    have hlookup_tok : lookupLink ((tok, (slabInsert s.pumps peer).2) ::
        ((slabInsert s.pumps peer).2, tok) :: s.links) tok =
        some (slabInsert s.pumps peer).2 := by
      simp [lookupLink]
    have hlookup_idx : lookupLink ((tok, (slabInsert s.pumps peer).2) ::
        ((slabInsert s.pumps peer).2, tok) :: s.links)
        (slabInsert s.pumps peer).2 = some tok := by
      simp [lookupLink, hne]
    have hold_lookup : ∀ a b, lookupLink s.links a = some b →
        lookupLink ((tok, (slabInsert s.pumps peer).2) ::
          ((slabInsert s.pumps peer).2, tok) :: s.links) a = some b := by
      intro a b hab
      have hmem := lookupLink_mem hab
      have ha1 : tok ≠ a := fun h => hkey_tok _ hmem h.symm
      have ha2 : (slabInsert s.pumps peer).2 ≠ a := fun h => hkey_idx _ hmem h.symm
      simp only [lookupLink, if_neg ha1, if_neg ha2]
      exact hab
    -- the intermediate state after inserting this pairing
    have hlk1 : LinksOK (Server.mk (slabInsert s.pumps peer).1
        ((tok, (slabInsert s.pumps peer).2) ::
          ((slabInsert s.pumps peer).2, tok) :: s.links) s.detached) := by
      refine ⟨?_, ?_, ?_⟩
      · intro kv hkv
        rcases List.mem_cons.1 hkv with rfl | hkv2
        · exact hlookup_idx
        · rcases List.mem_cons.1 hkv2 with rfl | hkv3
          · exact hlookup_tok
          · have hb1 : tok ≠ kv.2 := fun h => hval_tok _ hkv3 h.symm
            have hb2 : (slabInsert s.pumps peer).2 ≠ kv.2 :=
              fun h => hval_idx _ hkv3 h.symm
            simp only [lookupLink, if_neg hb1, if_neg hb2]
            exact hlk.1 kv hkv3
      · intro kv hkv
        rcases List.mem_cons.1 hkv with rfl | hkv2
        · exact hne
        · rcases List.mem_cons.1 hkv2 with rfl | hkv3
          · exact fun h => hne h.symm
          · exact hlk.2.1 kv hkv3
      · intro kv hkv
        rcases List.mem_cons.1 hkv with rfl | hkv2
        · exact ⟨pumpsMono_insert _ _ _ htok_live, hidx_live⟩
        · rcases List.mem_cons.1 hkv2 with rfl | hkv3
          · exact ⟨hidx_live, pumpsMono_insert _ _ _ htok_live⟩
          · exact ⟨pumpsMono_insert _ _ _ (hlk.2.2 kv hkv3).1,
              pumpsMono_insert _ _ _ (hlk.2.2 kv hkv3).2⟩
    have hdet1 : DetOK (Server.mk (slabInsert s.pumps peer).1
        ((tok, (slabInsert s.pumps peer).2) ::
          ((slabInsert s.pumps peer).2, tok) :: s.links) s.detached) := by
      intro t ht
      exact pumpsMono_insert _ _ _ (hdet t ht)
    have hrest_live : ∀ kv ∈ rest,
        (slabGet (slabInsert s.pumps peer).1 kv.1).isSome = true := by
      intro kv hkv
      exact pumpsMono_insert _ _ _ (hnl kv (List.mem_cons_of_mem _ hkv))
    have hrest_unl : ∀ kv ∈ rest,
        lookupLink ((tok, (slabInsert s.pumps peer).2) ::
          ((slabInsert s.pumps peer).2, tok) :: s.links) kv.1 = none := by
      intro kv hkv
      have hk1 : tok ≠ kv.1 := by
        intro h
        rw [List.map_cons, List.nodup_cons] at hnk
        exact hnk.1 (h ▸ List.mem_map.2 ⟨kv, hkv, rfl⟩)
      have hk2 : (slabInsert s.pumps peer).2 ≠ kv.1 := by
        intro h
        have h3 := hnl kv (List.mem_cons_of_mem _ hkv)
        rw [← h, hvac] at h3
        exact Bool.noConfusion h3
      simp only [lookupLink, if_neg hk1, if_neg hk2]
      exact hnu kv (List.mem_cons_of_mem _ hkv)
    have hrest_nodup : (rest.map Prod.fst).Nodup := by
      rw [List.map_cons, List.nodup_cons] at hnk
      exact hnk.2
    obtain ⟨s1, lg', heq', hlk2, hdet2, hdetEq2, hmono2, hlp2, hval2, hper2⟩ :=
      ih hlk1 hdet1 hrest_live hrest_unl hrest_nodup
    refine ⟨s1, PollOp.reg (slabInsert s.pumps peer).2 :: lg', ?_, hlk2, hdet2,
      hdetEq2, ?_, ?_, ?_, ?_⟩
    · simp only [applyNewPeers, hlinks1, heq']
    · exact pumpsMono_trans (pumpsMono_insert _ _) hmono2
    · exact fun a b hab => hlp2 a b (hold_lookup a b hab)
    · intro u hu
      have hune : u ≠ (slabInsert s.pumps peer).2 := by
        intro h
        rw [h, hvac] at hu
        exact Bool.noConfusion hu
      have h4 : slabGet (slabInsert s.pumps peer).1 u = slabGet s.pumps u :=
        slabInsert_get_other _ _ hune
      rw [hval2 u (by rw [h4]; exact hu), h4]
    · intro kv hkv
      rcases List.mem_cons.1 hkv with rfl | hkv2
      · exact ⟨(slabInsert s.pumps peer).2, hvac,
          hlp2 _ _ hlookup_tok, hlp2 _ _ hlookup_idx,
          hmono2 _ hidx_live, List.mem_cons_self _ _⟩
      · obtain ⟨idx', hvac', hl1', hl2', hlive', hreg'⟩ := hper2 kv hkv2
        refine ⟨idx', ?_, hl1', hl2', hlive', List.mem_cons_of_mem _ hreg'⟩
        cases hg : slabGet s.pumps idx' with
        | none => rfl
        | some q =>
          have h3 : (slabGet (slabInsert s.pumps peer).1 idx').isSome = true :=
            pumpsMono_insert _ _ _ (by rw [hg]; rfl)
          rw [hvac'] at h3
          exact Bool.noConfusion h3

/-- The detached scan never panics when every detached token is live, and
returns a subset of the detached set. -/
theorem scanDetached_some {pumps : List (Option Pump)} {dl : List Nat}
    (h : ∀ t ∈ dl, (slabGet pumps t).isSome = true) :
    ∃ out, scanDetached pumps dl = some out ∧ (∀ u ∈ out, u ∈ dl) ∧
      (∀ u ∈ dl, ∀ q, slabGet pumps u = some q → q.wantsWrite = false →
        u ∈ out) := by
  induction dl with
  | nil => exact ⟨[], rfl, by simp, by simp⟩
  | cons t rest ih =>
    obtain ⟨q, hq⟩ := Option.isSome_iff_exists.1 (h t (List.mem_cons_self _ _))
    obtain ⟨out, hout, hsub, hall⟩ := ih (fun u hu => h u (List.mem_cons_of_mem _ hu))
    refine ⟨if q.wantsWrite then out else t :: out, ?_, ?_, ?_⟩
    · simp only [scanDetached, hq, hout]
    · intro u hu
      by_cases hw : q.wantsWrite = true
      · rw [if_pos hw] at hu
        exact List.mem_cons_of_mem _ (hsub u hu)
      · rw [if_neg hw] at hu
        rcases List.mem_cons.1 hu with rfl | hu2
        · exact List.mem_cons_self _ _
        · exact List.mem_cons_of_mem _ (hsub u hu2)
    · intro u hu q2 hq2 hw2
      rcases List.mem_cons.1 hu with rfl | hu2
      · have hqq : q = q2 := by
          rw [hq] at hq2
          exact Option.some.inj hq2
        rw [if_neg (by rw [hqq, hw2]; exact fun h2 => Bool.noConfusion h2)]
        exact List.mem_cons_self _ _
      · have hmem := hall u hu2 q2 hq2 hw2
        by_cases hw : q.wantsWrite = true
        · rw [if_pos hw]
          exact hmem
        · rw [if_neg hw]
          exact List.mem_cons_of_mem _ hmem

/-- `drop_pump` on a live token: it succeeds, deregisters exactly that
token, vacates exactly that slot, preserves the invariant, and keeps every
link not incident to the dropped pair. -/
theorem dropPump_spec {s : Server} {t : Nat}
    (hlk : LinksOK s) (hdet : DetOK s)
    (hlive : (slabGet s.pumps t).isSome = true) :
    ∃ s1, dropPump s t = some (s1, PollOp.dereg t) ∧
      LinksOK s1 ∧ DetOK s1 ∧
      slabGet s1.pumps t = none ∧
      (∀ u, u ≠ t → slabGet s1.pumps u = slabGet s.pumps u) ∧
      (∀ a b, lookupLink s.links a = some b → a ≠ t → b ≠ t →
        lookupLink s1.links a = some b) := by
  obtain ⟨q, hq⟩ := Option.isSome_iff_exists.1 hlive
  have hlen : t < s.pumps.length := slabGet_isSome_lt hlive
  have hvact : slabGet (slabSet s.pumps t none) t = none :=
    slabGet_slabSet_self _ hlen
  cases hl : lookupLink s.links t with
  | none =>
    have hkey : ∀ kv ∈ s.links, kv.1 ≠ t := no_key_of_lookup_none hl
    have hval : ∀ kv ∈ s.links, kv.2 ≠ t := by
      intro kv hkv h2
      have h3 := hlk.1 kv hkv
      rw [h2, hl] at h3
      exact Option.noConfusion h3
    refine ⟨Server.mk (slabSet s.pumps t none) s.links (removeTok s.detached t),
      ?_, ⟨hlk.1, hlk.2.1, ?_⟩, ?_, hvact, ?_, ?_⟩
    · simp only [dropPump, hq, hl]
    · intro kv hkv
      rw [slabGet_slabSet_ne _ (fun h => hkey kv hkv h.symm),
        slabGet_slabSet_ne _ (fun h => hval kv hkv h.symm)]
      exact hlk.2.2 kv hkv
    · intro u hu
      obtain ⟨hu1, hu2⟩ := mem_removeTok.1 hu
      rw [slabGet_slabSet_ne _ (fun h => hu2 h.symm)]
      exact hdet u hu1
    · exact fun u hu => slabGet_slabSet_ne _ (fun h => hu h.symm)
    · exact fun a b hab _ _ => hab
  | some pt =>
    have hnept : t ≠ pt := hlk.lookup_ne hl
    have hptlive : (slabGet s.pumps pt).isSome = true := hlk.lookup_live hl
    have hsympt : lookupLink s.links pt = some t := hlk.lookup_sym hl
    have hrem_mem : ∀ kv ∈ linksRemove (linksRemove s.links t) pt,
        kv ∈ s.links ∧ kv.1 ≠ t ∧ kv.1 ≠ pt := by
      intro kv hkv
      have h1 := key_of_mem_linksRemove hkv
      have h2 := linksRemove_subset _ hkv
      exact ⟨linksRemove_subset _ h2, key_of_mem_linksRemove h2, h1⟩
    have hval : ∀ kv ∈ linksRemove (linksRemove s.links t) pt,
        kv.2 ≠ t ∧ kv.2 ≠ pt := by
      intro kv hkv
      obtain ⟨hmem, hk1, hk2⟩ := hrem_mem kv hkv
      constructor
      · intro h2
        have h3 := hlk.1 kv hmem
        rw [h2, hl] at h3
        exact hk2 (Option.some.inj h3).symm
      · intro h2
        have h3 := hlk.1 kv hmem
        rw [h2, hsympt] at h3
        exact hk1 (Option.some.inj h3).symm
    refine ⟨Server.mk (slabSet s.pumps t none)
        (linksRemove (linksRemove s.links t) pt)
        (insTok (removeTok s.detached t) pt),
      ?_, ⟨?_, ?_, ?_⟩, ?_, hvact, ?_, ?_⟩
    · simp only [dropPump, hq, hl]
    · intro kv hkv
      obtain ⟨hmem, _, _⟩ := hrem_mem kv hkv
      obtain ⟨hv1, hv2⟩ := hval kv hkv
      rw [lookupLink_linksRemove, if_neg hv2, lookupLink_linksRemove, if_neg hv1]
      exact hlk.1 kv hmem
    · intro kv hkv
      exact hlk.2.1 kv (hrem_mem kv hkv).1
    · intro kv hkv
      obtain ⟨hmem, hk1, _⟩ := hrem_mem kv hkv
      obtain ⟨hv1, _⟩ := hval kv hkv
      rw [slabGet_slabSet_ne _ (fun h => hk1 h.symm),
        slabGet_slabSet_ne _ (fun h => hv1 h.symm)]
      exact hlk.2.2 kv hmem
    · intro u hu
      rcases mem_insTok.1 hu with hu1 | rfl
      · obtain ⟨hu2, hu3⟩ := mem_removeTok.1 hu1
        rw [slabGet_slabSet_ne _ (fun h => hu3 h.symm)]
        exact hdet u hu2
      · rw [slabGet_slabSet_ne _ hnept]
        exact hptlive
    · exact fun u hu => slabGet_slabSet_ne _ (fun h => hu h.symm)
    · intro a b hab hat hbt
      have hapt : a ≠ pt := by
        intro h
        rw [h, hsympt] at hab
        exact hbt (Option.some.inj hab).symm
      rw [lookupLink_linksRemove, if_neg hapt, lookupLink_linksRemove, if_neg hat]
      exact hab

/-- The drop loop on a duplicate-free list of live tokens: every listed
token is dropped and deregistered, every other slot is untouched, links not
incident to any dropped token survive, and the invariant is preserved. -/
theorem dropStale_spec {l : List Nat} :
    ∀ {s : Server}, LinksOK s → DetOK s →
    (∀ t ∈ l, (slabGet s.pumps t).isSome = true) → l.Nodup →
    ∃ s2 lg, dropStale s l = some (s2, lg) ∧ LinksOK s2 ∧ DetOK s2 ∧
      (∀ t ∈ l, slabGet s2.pumps t = none ∧ PollOp.dereg t ∈ lg) ∧
      (∀ u, u ∉ l → slabGet s2.pumps u = slabGet s.pumps u) ∧
      (∀ a b, lookupLink s.links a = some b → a ∉ l → b ∉ l →
        lookupLink s2.links a = some b) := by
  induction l with
  | nil =>
    intro s hlk hdet _ _
    exact ⟨s, [], rfl, hlk, hdet, by simp, fun u _ => rfl, fun a b hab _ _ => hab⟩
  | cons t rest ih =>
    intro s hlk hdet hl hn
    rw [List.nodup_cons] at hn
    obtain ⟨s1, heq1, hlk1, hdet1, hvac1, hoth1, hlp1⟩ :=
      dropPump_spec hlk hdet (hl t (List.mem_cons_self _ _))
    have hrest_live : ∀ u ∈ rest, (slabGet s1.pumps u).isSome = true := by
      intro u hu
      rw [hoth1 u (fun h => hn.1 (h ▸ hu))]
      exact hl u (List.mem_cons_of_mem _ hu)
    obtain ⟨s2, lg, heq2, hlk2, hdet2, hdrop2, hoth2, hlp2⟩ :=
      ih hlk1 hdet1 hrest_live hn.2
    refine ⟨s2, PollOp.dereg t :: lg, ?_, hlk2, hdet2, ?_, ?_, ?_⟩
    · simp only [dropStale, heq1, heq2]
    · intro u hu
      rcases List.mem_cons.1 hu with rfl | hu2
      · rw [hoth2 u hn.1]
        exact ⟨hvac1, List.mem_cons_self _ _⟩
      · obtain ⟨h1, h2⟩ := hdrop2 u hu2
        exact ⟨h1, List.mem_cons_of_mem _ h2⟩
    · intro u hu
      rw [List.mem_cons] at hu
      push_neg at hu
      rw [hoth2 u hu.2]
      exact hoth1 u hu.1
    · intro a b hab hat hbt
      rw [List.mem_cons] at hat hbt
      push_neg at hat hbt
      exact hlp2 a b (hlp1 a b hab hat.1 hbt.1) hat.2 hbt.2

/-- One full dispatch cycle from an invariant-satisfying state, on a batch
respecting the pump contract: it never panics and preserves the invariant. -/
theorem dispatch_ok {s : Server} {evs : List Ev}
    (hin : Inv s) (hwf : EventsWF s evs) :
    ∃ s2 lg, dispatch s evs = some (s2, lg) ∧ Inv s2 := by
  have hb0 : BatchOK s { srv := s, stale := [], newPeers := [], log := [] } :=
    { links_eq := rfl, det_eq := rfl, mono := pumpsMono_refl _,
      stale_live := by simp, stale_nodup := List.nodup_nil,
      np_live := by simp, np_unlinked := by simp, np_keys_nodup := by simp }
  obtain ⟨a1, ha1, hb1⟩ := procEvents_spec hin hb0 hwf
  have hlk1 : LinksOK a1.srv := (hin.1).transfer hb1.links_eq hb1.mono
  have hdet1 : DetOK a1.srv := by
    intro t ht
    rw [hb1.det_eq] at ht
    exact hb1.mono _ (hin.2 t ht)
  have hnp_unl : ∀ kv ∈ a1.newPeers, lookupLink a1.srv.links kv.1 = none := by
    intro kv hkv
    rw [hb1.links_eq]
    exact hb1.np_unlinked kv hkv
  obtain ⟨s1, lg1, heqA, hlkA, hdetA, hdetEqA, hmonoA, hlpA, hvalA, hperA⟩ :=
    applyNewPeers_spec hlk1 hdet1 hb1.np_live hnp_unl hb1.np_keys_nodup
  obtain ⟨out, hscan, hsub, hall⟩ := scanDetached_some (fun t ht => hdetA t ht)
  have hstale' : ∀ t ∈ out.foldl insTok a1.stale,
      (slabGet s1.pumps t).isSome = true := by
    intro t ht
    rcases foldl_insTok_mem.1 ht with h1 | h1
    · exact hmonoA _ (hb1.stale_live t h1)
    · exact hdetA t (hsub t h1)
  have hnodup' : (out.foldl insTok a1.stale).Nodup :=
    foldl_insTok_nodup hb1.stale_nodup
  obtain ⟨s2, lg2, heqD, hlkD, hdetD, _, _, _⟩ :=
    dropStale_spec hlkA hdetA hstale' hnodup'
  refine ⟨s2, a1.log ++ lg1 ++ lg2, ?_, hlkD, hdetD⟩
  simp only [dispatch, ha1, heqA, hscan, heqD]

theorem inv_initial : Inv Server.initial := by
  refine ⟨⟨?_, ?_, ?_⟩, ?_⟩ <;> intro x hx <;> simp [Server.initial] at hx

/-- Every reachable reactor state satisfies the registry-consistency
invariant. -/
theorem reach_inv {s : Server} (h : Reach s) : Inv s := by
  induction h with
  | init => exact inv_initial
  | step hr hwf hd ih =>
    obtain ⟨s2, lg2, heq, hinv⟩ := dispatch_ok ih hwf
    rw [hd] at heq
    obtain ⟨h1, _⟩ := Prod.mk.injEq .. ▸ Option.some.inj heq
    exact h1 ▸ hinv

/-- C4 amended witness. -/
theorem drop_linked_detaches_partner_w :
    (slabGet [none, some ⟨[], [], true⟩] 1 =
        slabGet [some ⟨[], [], true⟩, some ⟨[], [], true⟩] 1 ∧
      (1 : Nat) ∈ ([1] : List Nat) ∧ PollOp.dereg 0 = PollOp.dereg 0) ∧
    (slabGet [some ⟨[], [], true⟩] 0).map Pump.wantsWrite = some false :=
  ⟨(drop_linked_detaches_partner
      { pumps := [some ⟨[], [], true⟩, some ⟨[], [], true⟩],
        links := [(0, 1), (1, 0)], detached := [] } 0 1
      { pumps := [none, some ⟨[], [], true⟩], links := [], detached := [1] }
      (PollOp.dereg 0) [some ⟨[], [], true⟩] [0] [0]
      (by decide) (by decide) (by decide) (by decide)).1,
   (drop_linked_detaches_partner
      { pumps := [some ⟨[], [], true⟩, some ⟨[], [], true⟩],
        links := [(0, 1), (1, 0)], detached := [] } 0 1
      { pumps := [none, some ⟨[], [], true⟩], links := [], detached := [1] }
      (PollOp.dereg 0) [some ⟨[], [], true⟩] [0] [0]
      (by decide) (by decide) (by decide) (by decide)).2 0 (by decide)⟩

/-! ### Claims C3, C9: reachable-state invariants -/

/-- C3: in every reachable reactor state the link table is symmetric: token
A maps to B if and only if B maps to A.  Links are formed in pairs by the
end-of-cycle activation and both directions are removed together by
`drop_pump`. -/
theorem link_table_symmetric {s : Server} (h : Reach s) (a b : Nat) :
    lookupLink s.links a = some b ↔ lookupLink s.links b = some a := by
  have hlk := (reach_inv h).1
  exact ⟨fun h1 => hlk.lookup_sym h1, fun h1 => hlk.lookup_sym h1⟩

/-- C3 witness. -/
theorem link_table_symmetric_w :
    lookupLink Server.initial.links 0 = some 1 ↔
    lookupLink Server.initial.links 1 = some 0 :=
  link_table_symmetric Reach.init 0 1

/-- C9: in every reachable reactor state, every token stored in the link
table (key or value) and every detached token refers to a live registry
slot; consequently a dispatch cycle on a contract-respecting batch never
hits an empty slot in its unchecked lookups (`fan_out`, `fan_in`, the
detached scan, and the removal in `drop_pump`), modelled as `dispatch`
never returning `none`. -/
theorem reachable_slots_live {s : Server} (h : Reach s) :
    (∀ kv ∈ s.links, (slabGet s.pumps kv.1).isSome = true ∧
      (slabGet s.pumps kv.2).isSome = true) ∧
    (∀ t ∈ s.detached, (slabGet s.pumps t).isSome = true) ∧
    (∀ evs, EventsWF s evs → dispatch s evs ≠ none) := by
  have hin := reach_inv h
  refine ⟨hin.1.2.2, hin.2, ?_⟩
  intro evs hwf hnone
  obtain ⟨s2, lg, heq, _⟩ := dispatch_ok hin hwf
  rw [heq] at hnone
  exact Option.noConfusion hnone

/-- C9 witness. -/
theorem reachable_slots_live_w : dispatch Server.initial [] ≠ none :=
  (reachable_slots_live Reach.init).2.2 []
    (fun ev h => absurd h (List.not_mem_nil ev))

/-! ### Claim C5: a flush failure ends the event batch early -/

/-- C5: when flush fails for the event currently being processed, its token
is marked stale and the event loop stops: the remaining events of the batch
are not classified or handled, so the loop's result does not depend on
them. -/
theorem flush_err_stops_batch {s0 : Server} (a : Acc) (ev : Ev)
    (rest : List Ev) (p : Pump)
    (hin : Inv s0) (hb : BatchOK s0 a)
    (hroot : ev.token ≠ rootToken)
    (hget : slabGet a.srv.pumps ev.token = some p)
    (hw : ev.writable = true)
    (hf : ev.flush = none) :
    procEvents a (ev :: rest) = procEvents a [ev] ∧
    procEvents a [ev] ≠ none ∧
    ev.token ∈ staleOf (procEvents a [ev]) := by
  have hlk : LinksOK a.srv := (hin.1).transfer hb.links_eq hb.mono
  have htl : (slabGet a.srv.pumps ev.token).isSome = true := by
    rw [hget]
    rfl
  obtain ⟨p1, srv1, stale1, np1, lg1, heq1, hl1, hd1, hm1, hsl1, hsn1,
    hnl1, hnk1, hnp1, hlg1, _⟩ :=
    readPhase_spec p a.stale a.newPeers hlk htl hb.stale_live hb.stale_nodup
      hb.np_live hb.np_keys_nodup
  have hlk1 : LinksOK srv1 := hlk.transfer hl1 hm1
  have htl1 : (slabGet srv1.pumps ev.token).isSome = true := hm1 _ htl
  obtain ⟨go, p2, srv2, stale2, lg2, heq2, hl2, hd2, hm2, hsl2, hsn2,
    hgof, hgot, hfl, hlg2, _⟩ :=
    writePhase_spec p1 stale1 hlk1 htl1 hsl1 hsn1
  have hgo : go = false := hfl hw hf
  subst hgo
  have hpe : procEvent a ev = StepOut.halt
      { srv := { srv2 with pumps := slabSet srv2.pumps ev.token (some p2) },
        stale := stale2, newPeers := np1,
        log := a.log ++ lg1 ++ lg2 } := by
    simp only [procEvent, if_neg hroot, hget, heq1, heq2, Bool.false_eq_true,
      if_false]
  refine ⟨?_, ?_, ?_⟩
  · simp only [procEvents, hpe]
  · simp only [procEvents, hpe]
    exact fun h => Option.noConfusion h
  · simp only [procEvents, hpe, staleOf]
    exact (hgof rfl).1

/-- C5 witness. -/
theorem flush_err_stops_batch_w :
    procEvents
        { srv := { pumps := [some ⟨[], [3], true⟩], links := [], detached := [] },
          stale := [], newPeers := [], log := [] }
        [{ token := 0, readable := false, writable := true, hup := false,
           isErr := false, drain := DrainRes.quiet [], flush := none, acc := none },
         { token := 0, readable := true, writable := false, hup := false,
           isErr := false, drain := DrainRes.quiet [9], flush := none, acc := none }] =
      procEvents
        { srv := { pumps := [some ⟨[], [3], true⟩], links := [], detached := [] },
          stale := [], newPeers := [], log := [] }
        [{ token := 0, readable := false, writable := true, hup := false,
           isErr := false, drain := DrainRes.quiet [], flush := none, acc := none }] ∧
    procEvents
        { srv := { pumps := [some ⟨[], [3], true⟩], links := [], detached := [] },
          stale := [], newPeers := [], log := [] }
        [{ token := 0, readable := false, writable := true, hup := false,
           isErr := false, drain := DrainRes.quiet [], flush := none, acc := none }] ≠
      none ∧
    (0 : Nat) ∈ staleOf (procEvents
        { srv := { pumps := [some ⟨[], [3], true⟩], links := [], detached := [] },
          stale := [], newPeers := [], log := [] }
        [{ token := 0, readable := false, writable := true, hup := false,
           isErr := false, drain := DrainRes.quiet [], flush := none, acc := none }]) :=
  flush_err_stops_batch _ _ _ ⟨[], [3], true⟩
    (by refine ⟨⟨?_, ?_, ?_⟩, ?_⟩ <;> intro x hx <;> simp at hx)
    { links_eq := rfl, det_eq := rfl, mono := fun _ h => h,
      stale_live := by simp, stale_nodup := List.nodup_nil,
      np_live := by simp, np_unlinked := by simp, np_keys_nodup := by simp }
    (by decide) rfl rfl rfl

/-! ### Claim C6: hangup/error beats re-registration -/

/-- C6: for a data-socket event whose handling completes (no flush-error
break), hangup or error readiness marks the token stale and the token's
socket is not re-registered in that event's handling; the token is
re-registered exactly when neither hangup nor error is present. -/
theorem hup_error_precedence {s0 : Server} (a : Acc) (ev : Ev) (a1 : Acc)
    (p : Pump)
    (hin : Inv s0) (hb : BatchOK s0 a)
    (hroot : ev.token ≠ rootToken)
    (hget : slabGet a.srv.pumps ev.token = some p)
    (hlog : a.log = [])
    (hcont : procEvent a ev = StepOut.cont a1) :
    ((ev.hup = true ∨ ev.isErr = true) →
      ev.token ∈ a1.stale ∧ PollOp.rereg ev.token ∉ a1.log) ∧
    (ev.hup = false → ev.isErr = false → PollOp.rereg ev.token ∈ a1.log) := by
  have hlk : LinksOK a.srv := (hin.1).transfer hb.links_eq hb.mono
  have htl : (slabGet a.srv.pumps ev.token).isSome = true := by
    rw [hget]
    rfl
  obtain ⟨p1, srv1, stale1, np1, lg1, heq1, hl1, hd1, hm1, hsl1, hsn1,
    hnl1, hnk1, hnp1, hlg1, _⟩ :=
    readPhase_spec p a.stale a.newPeers hlk htl hb.stale_live hb.stale_nodup
      hb.np_live hb.np_keys_nodup
  have hlk1 : LinksOK srv1 := hlk.transfer hl1 hm1
  have htl1 : (slabGet srv1.pumps ev.token).isSome = true := hm1 _ htl
  obtain ⟨go, p2, srv2, stale2, lg2, heq2, hl2, hd2, hm2, hsl2, hsn2,
    hgof, hgot, hfl, hlg2, _⟩ :=
    writePhase_spec p1 stale1 hlk1 htl1 hsl1 hsn1
  cases go with
  | false =>
    have hpe : procEvent a ev = StepOut.halt
        { srv := { srv2 with pumps := slabSet srv2.pumps ev.token (some p2) },
          stale := stale2, newPeers := np1,
          log := a.log ++ lg1 ++ lg2 } := by
      simp only [procEvent, if_neg hroot, hget, heq1, heq2, Bool.false_eq_true,
        if_false]
    rw [hpe] at hcont
    exact StepOut.noConfusion hcont
  | true =>
    have hpe : procEvent a ev = StepOut.cont
        { srv := { srv2 with pumps := slabSet srv2.pumps ev.token (some p2) },
          stale := (if ev.hup then (insTok stale2 ev.token, ([] : List PollOp))
            else if ev.isErr then (insTok stale2 ev.token, [])
            else (stale2, [PollOp.rereg ev.token])).1,
          newPeers := np1,
          log := a.log ++ lg1 ++ lg2 ++
            (if ev.hup then (insTok stale2 ev.token, ([] : List PollOp))
            else if ev.isErr then (insTok stale2 ev.token, [])
            else (stale2, [PollOp.rereg ev.token])).2 } := by
      simp only [procEvent, if_neg hroot, hget, heq1, heq2, if_true]
    rw [hpe] at hcont
    cases hcont
    have hnotin : PollOp.rereg ev.token ∉ lg1 ++ lg2 := by
      intro hmem
      rcases List.mem_append.1 hmem with h1 | h1
      · obtain ⟨pt2, hop, hne⟩ := hlg1 _ h1
        exact hne (PollOp.rereg.inj hop.symm)
      · obtain ⟨pt2, hop, hne⟩ := hlg2 _ h1
        exact hne (PollOp.rereg.inj hop.symm)
    constructor
    · intro hhe
      have htail : (if ev.hup then (insTok stale2 ev.token, ([] : List PollOp))
          else if ev.isErr then (insTok stale2 ev.token, [])
          else (stale2, [PollOp.rereg ev.token])) =
          (insTok stale2 ev.token, []) := by
        rcases hhe with h1 | h1
        · rw [if_pos h1]
        · by_cases h2 : ev.hup = true
          · rw [if_pos h2]
          · rw [Bool.not_eq_true] at h2
            rw [h2]
            simp only [Bool.false_eq_true, if_false, if_pos h1]
      rw [htail]
      refine ⟨self_mem_insTok _ _, ?_⟩
      rw [hlog, List.append_nil, List.nil_append]
      exact hnotin
    · intro hh he
      rw [hh, he]
      simp only [Bool.false_eq_true, if_false]
      rw [hlog, List.nil_append]
      exact List.mem_append.2 (Or.inr (List.mem_singleton.2 rfl))

/-- C6 witness. -/
theorem hup_error_precedence_w :
    ((true = true ∨ false = true) →
      (0 : Nat) ∈ [0] ∧ PollOp.rereg 0 ∉ ([] : List PollOp)) ∧
    (true = false → false = false → PollOp.rereg 0 ∈ ([] : List PollOp)) :=
  hup_error_precedence
    { srv := { pumps := [some ⟨[], [], true⟩], links := [], detached := [] },
      stale := [], newPeers := [], log := [] }
    { token := 0, readable := false, writable := false, hup := true,
      isErr := false, drain := DrainRes.quiet [], flush := none, acc := none }
    { srv := { pumps := [some ⟨[], [], true⟩], links := [], detached := [] },
      stale := [0], newPeers := [], log := [] }
    ⟨[], [], true⟩
    (by refine ⟨⟨?_, ?_, ?_⟩, ?_⟩ <;> intro x hx <;> simp at hx)
    { links_eq := rfl, det_eq := rfl, mono := fun _ h => h,
      stale_live := by simp, stale_nodup := List.nodup_nil,
      np_live := by simp, np_unlinked := by simp, np_keys_nodup := by simp }
    (by decide) rfl rfl (by decide)

/-! ### Claim C7: links are only activated after the batch -/

/-- C7: the event loop never changes the link table (pairings are only
collected in `new_peers`), an event naming a token with no backing slot is
skipped, and the end-of-cycle activation of a pairing inserts the upstream
pump at a slot that was vacant until then, links both directions, and
registers the new upstream token — so no dispatch step earlier in the same
cycle can address it. -/
theorem links_activated_end_of_cycle {s : Server} {evs : List Ev} {a1 : Acc}
    (s1 : Server) (tok : Nat) (peer : Pump)
    (hin : Inv s) (hwf : EventsWF s evs)
    (hrun : procEvents { srv := s, stale := [], newPeers := [], log := [] } evs =
      some a1)
    (htl : (slabGet s1.pumps tok).isSome = true) :
    a1.srv.links = s.links ∧
    (∀ (a2 : Acc) (ev2 : Ev), ev2.token ≠ rootToken →
      slabGet a2.srv.pumps ev2.token = none →
      procEvent a2 ev2 = StepOut.cont a2) ∧
    (slabGet s1.pumps (slabInsert s1.pumps peer).2 = none ∧
      lookupLink (applyNewPeers s1 [(tok, peer)]).1.links tok =
        some (slabInsert s1.pumps peer).2 ∧
      lookupLink (applyNewPeers s1 [(tok, peer)]).1.links
        (slabInsert s1.pumps peer).2 = some tok ∧
      slabGet (applyNewPeers s1 [(tok, peer)]).1.pumps
        (slabInsert s1.pumps peer).2 = some peer ∧
      (applyNewPeers s1 [(tok, peer)]).2 =
        [PollOp.reg (slabInsert s1.pumps peer).2]) := by
  refine ⟨?_, ?_, ?_⟩
  · have hb0 : BatchOK s { srv := s, stale := [], newPeers := [], log := [] } :=
      { links_eq := rfl, det_eq := rfl, mono := pumpsMono_refl _,
        stale_live := by simp, stale_nodup := List.nodup_nil,
        np_live := by simp, np_unlinked := by simp, np_keys_nodup := by simp }
    obtain ⟨a1', ha1', hb1'⟩ := procEvents_spec hin hb0 hwf
    rw [hrun] at ha1'
    have h5 : a1 = a1' := Option.some.inj ha1'
    rw [h5]
    exact hb1'.links_eq
  · intro a2 ev2 hroot2 hget2
    simp only [procEvent, if_neg hroot2, hget2]
  · have hne : tok ≠ (slabInsert s1.pumps peer).2 := by
      intro h
      rw [h, slabInsert_get_old] at htl
      exact Bool.noConfusion htl
    refine ⟨slabInsert_get_old _ _, ?_, ?_, ?_, ?_⟩
    · show lookupLink (linksInsert (linksInsert s1.links (slabInsert s1.pumps peer).2
        tok) tok (slabInsert s1.pumps peer).2) tok = some (slabInsert s1.pumps peer).2
      rw [lookupLink_linksInsert, if_pos rfl]
    · show lookupLink (linksInsert (linksInsert s1.links (slabInsert s1.pumps peer).2
        tok) tok (slabInsert s1.pumps peer).2) (slabInsert s1.pumps peer).2 = some tok
      rw [lookupLink_linksInsert, if_neg (fun h => hne h.symm),
        lookupLink_linksInsert, if_pos rfl]
    · exact slabInsert_get_new _ _
    · rfl

/-- C7 witness. -/
theorem links_activated_end_of_cycle_w :
    Server.initial.links = Server.initial.links ∧
    (∀ (a2 : Acc) (ev2 : Ev), ev2.token ≠ rootToken →
      slabGet a2.srv.pumps ev2.token = none →
      procEvent a2 ev2 = StepOut.cont a2) ∧
    (slabGet [some ⟨[], [], true⟩]
        (slabInsert [some ⟨[], [], true⟩] ⟨[7], [], true⟩).2 = none ∧
      lookupLink (applyNewPeers (Server.mk [some ⟨[], [], true⟩] [] [])
          [(0, ⟨[7], [], true⟩)]).1.links 0 =
        some (slabInsert [some ⟨[], [], true⟩] ⟨[7], [], true⟩).2 ∧
      lookupLink (applyNewPeers (Server.mk [some ⟨[], [], true⟩] [] [])
          [(0, ⟨[7], [], true⟩)]).1.links
        (slabInsert [some ⟨[], [], true⟩] ⟨[7], [], true⟩).2 = some 0 ∧
      slabGet (applyNewPeers (Server.mk [some ⟨[], [], true⟩] [] [])
          [(0, ⟨[7], [], true⟩)]).1.pumps
        (slabInsert [some ⟨[], [], true⟩] ⟨[7], [], true⟩).2 = some ⟨[7], [], true⟩ ∧
      (applyNewPeers (Server.mk [some ⟨[], [], true⟩] [] [])
          [(0, ⟨[7], [], true⟩)]).2 =
        [PollOp.reg (slabInsert [some ⟨[], [], true⟩] ⟨[7], [], true⟩).2]) :=
  links_activated_end_of_cycle
    (Server.mk [some ⟨[], [], true⟩] [] []) 0 ⟨[7], [], true⟩
    (by refine ⟨⟨?_, ?_, ?_⟩, ?_⟩ <;> intro x hx <;> simp at hx)
    (fun ev h => absurd h (List.not_mem_nil ev))
    rfl rfl

/-! ### Claim C10: the end-of-cycle reconciliation runs even after an early
flush-failure break -/

/-- C10: a batch of two events — first a readable event whose drain yields a
routing decision and a pooled upstream, then a writable event whose flush
fails and breaks the batch — still gets the full end-of-cycle
reconciliation in the same `dispatch` call: the collected pairing is
inserted, linked in both directions and registered; every detached token
with no pending output is dropped; and the flush-failed token itself is
dropped and deregistered in this same cycle. -/
theorem flush_err_still_reconciles
    (s : Server) (ev1 ev2 : Ev) (q1 q2 peerP : Pump) (bs1 : List Byte)
    (hin : Inv s)
    (h1root : ev1.token ≠ rootToken) (h2root : ev2.token ≠ rootToken)
    (hne12 : ev2.token ≠ ev1.token)
    (hq1 : slabGet s.pumps ev1.token = some q1)
    (hq2 : slabGet s.pumps ev2.token = some q2)
    (h1r : ev1.readable = true)
    (h1d : ev1.drain = DrainRes.route bs1 (some peerP))
    (h1w : ev1.writable = false) (h1h : ev1.hup = false) (h1e : ev1.isErr = false)
    (h1unl : lookupLink s.links ev1.token = none)
    (h1det : ev1.token ∉ s.detached)
    (h2r : ev2.readable = false) (h2w : ev2.writable = true)
    (h2f : ev2.flush = none)
    (h2unl : lookupLink s.links ev2.token = none)
    (h2det : ev2.token ∉ s.detached) :
    dispatch s [ev1, ev2] ≠ none ∧
    slabGet (pumpsOf (dispatch s [ev1, ev2])) ev2.token = none ∧
    PollOp.dereg ev2.token ∈ logOf (dispatch s [ev1, ev2]) ∧
    (lookupLink (linksOf (dispatch s [ev1, ev2])) ev1.token).isSome = true ∧
    lookupLink (linksOf (dispatch s [ev1, ev2]))
      ((lookupLink (linksOf (dispatch s [ev1, ev2])) ev1.token).getD 0) =
      some ev1.token ∧
    (slabGet (pumpsOf (dispatch s [ev1, ev2]))
      ((lookupLink (linksOf (dispatch s [ev1, ev2])) ev1.token).getD 0)).isSome =
      true ∧
    PollOp.reg ((lookupLink (linksOf (dispatch s [ev1, ev2])) ev1.token).getD 0) ∈
      logOf (dispatch s [ev1, ev2]) ∧
    (∀ d ∈ s.detached, ∀ qd, slabGet s.pumps d = some qd → qd.outBuf = [] →
      slabGet (pumpsOf (dispatch s [ev1, ev2])) d = none) := by
  have hne21 : ev1.token ≠ ev2.token := fun h => hne12 h.symm
  -- processing ev1: drain + route, pairing queued, re-registered
  have hpe1 : procEvent (Acc.mk s [] [] []) ev1 = StepOut.cont
      (Acc.mk (Server.mk (slabSet s.pumps ev1.token
          (some (Pump.mk [] q1.outBuf q1.wantRead))) s.links s.detached)
        []
        [(ev1.token, if (q1.inBuf ++ bs1).length > 0
          then peerP.push (q1.inBuf ++ bs1) else peerP)]
        [PollOp.rereg ev1.token]) := by
    simp only [procEvent, if_neg h1root, hq1, readPhase, h1r, if_true, drainStep,
      h1d, Pump.pull, assocInsert, assocFilterOut, h1unl, writePhase, h1w,
      Bool.false_eq_true, if_false, h1h, h1e, List.nil_append, List.append_nil]
  have hq2' : slabGet (slabSet s.pumps ev1.token
      (some (Pump.mk [] q1.outBuf q1.wantRead))) ev2.token = some q2 := by
    rw [slabGet_slabSet_ne _ hne21]
    exact hq2
  -- processing ev2: fan-in skipped (unlinked), flush fails, batch breaks
  have hpe2 : procEvent
      (Acc.mk (Server.mk (slabSet s.pumps ev1.token
          (some (Pump.mk [] q1.outBuf q1.wantRead))) s.links s.detached)
        []
        [(ev1.token, if (q1.inBuf ++ bs1).length > 0
          then peerP.push (q1.inBuf ++ bs1) else peerP)]
        [PollOp.rereg ev1.token]) ev2 = StepOut.halt
      (Acc.mk (Server.mk (slabSet (slabSet s.pumps ev1.token
          (some (Pump.mk [] q1.outBuf q1.wantRead))) ev2.token (some q2))
          s.links s.detached)
        (insTok [] ev2.token)
        [(ev1.token, if (q1.inBuf ++ bs1).length > 0
          then peerP.push (q1.inBuf ++ bs1) else peerP)]
        [PollOp.rereg ev1.token]) := by
    simp only [procEvent, if_neg h2root, hq2', readPhase, h2r, Bool.false_eq_true,
      if_false, writePhase, h2w, if_true, h2unl, h2f, List.append_nil]
  have hproc : procEvents (Acc.mk s [] [] []) [ev1, ev2] = some
      (Acc.mk (Server.mk (slabSet (slabSet s.pumps ev1.token
          (some (Pump.mk [] q1.outBuf q1.wantRead))) ev2.token (some q2))
          s.links s.detached)
        (insTok [] ev2.token)
        [(ev1.token, if (q1.inBuf ++ bs1).length > 0
          then peerP.push (q1.inBuf ++ bs1) else peerP)]
        [PollOp.rereg ev1.token]) := by
    simp only [procEvents, hpe1, hpe2]
  -- end-of-cycle reconciliation
  have hmono02 : pumpsMono s.pumps (slabSet (slabSet s.pumps ev1.token
      (some (Pump.mk [] q1.outBuf q1.wantRead))) ev2.token (some q2)) :=
    pumpsMono_trans (pumpsMono_set_some _ _ _) (pumpsMono_set_some _ _ _)
  have ht1live2 : (slabGet (slabSet (slabSet s.pumps ev1.token
      (some (Pump.mk [] q1.outBuf q1.wantRead))) ev2.token (some q2))
      ev1.token).isSome = true := by
    rw [slabGet_slabSet_ne _ hne12,
      slabGet_slabSet_self _ (slabGet_isSome_lt (by rw [hq1]; rfl))]
    rfl
  have ht2live2 : (slabGet (slabSet (slabSet s.pumps ev1.token
      (some (Pump.mk [] q1.outBuf q1.wantRead))) ev2.token (some q2))
      ev2.token).isSome = true := by
    rw [slabGet_slabSet_self _ (slabGet_isSome_lt (by rw [hq2']; rfl))]
    rfl
  have hlkA0 : LinksOK (Server.mk (slabSet (slabSet s.pumps ev1.token
      (some (Pump.mk [] q1.outBuf q1.wantRead))) ev2.token (some q2))
      s.links s.detached) :=
    (hin.1).transfer rfl hmono02
  have hdetA0 : DetOK (Server.mk (slabSet (slabSet s.pumps ev1.token
      (some (Pump.mk [] q1.outBuf q1.wantRead))) ev2.token (some q2))
      s.links s.detached) :=
    fun t ht => hmono02 _ (hin.2 t ht)
  obtain ⟨s1, lgA, heqA, hlkA, hdetA, hdetEqA, hmonoA, hlpA, hvalA, hperA⟩ :=
    @applyNewPeers_spec
      [(ev1.token, if (q1.inBuf ++ bs1).length > 0
        then peerP.push (q1.inBuf ++ bs1) else peerP)]
      (Server.mk (slabSet (slabSet s.pumps ev1.token
        (some (Pump.mk [] q1.outBuf q1.wantRead))) ev2.token (some q2))
        s.links s.detached)
      hlkA0 hdetA0
      (by
        refine List.forall_mem_singleton.2 ?_
        show (slabGet (slabSet (slabSet s.pumps ev1.token
          (some (Pump.mk [] q1.outBuf q1.wantRead))) ev2.token (some q2))
          ev1.token).isSome = true
        exact ht1live2)
      (by
        refine List.forall_mem_singleton.2 ?_
        show lookupLink s.links ev1.token = none
        exact h1unl)
      (by simp)
  obtain ⟨idx, hidxvac, hlook1, hlook2, hidxlive, hregA⟩ :=
    hperA _ (List.mem_singleton.2 rfl)
  have hidxvac' : slabGet (slabSet (slabSet s.pumps ev1.token
      (some (Pump.mk [] q1.outBuf q1.wantRead))) ev2.token (some q2)) idx = none :=
    hidxvac
  have hvalA' : ∀ u, (slabGet (slabSet (slabSet s.pumps ev1.token
      (some (Pump.mk [] q1.outBuf q1.wantRead))) ev2.token (some q2)) u).isSome =
      true →
      slabGet s1.pumps u = slabGet (slabSet (slabSet s.pumps ev1.token
      (some (Pump.mk [] q1.outBuf q1.wantRead))) ev2.token (some q2)) u :=
    hvalA
  obtain ⟨out, hscan, hsubO, hallO⟩ := scanDetached_some (fun t ht => hdetA t ht)
  have hdetS : s1.detached = s.detached := hdetEqA
  -- membership facts in the final stale set
  have ht2stale : ev2.token ∈ out.foldl insTok (insTok [] ev2.token) :=
    foldl_insTok_mem.2 (Or.inl (self_mem_insTok _ _))
  have ht1notstale : ev1.token ∉ out.foldl insTok (insTok [] ev2.token) := by
    intro hmem
    rcases foldl_insTok_mem.1 hmem with h1 | h1
    · rcases mem_insTok.1 h1 with h2 | h2
      · simp at h2
      · exact hne12 h2.symm
    · exact h1det (hdetS ▸ hsubO _ h1)
  have hidxnotstale : idx ∉ out.foldl insTok (insTok [] ev2.token) := by
    intro hmem
    rcases foldl_insTok_mem.1 hmem with h1 | h1
    · rcases mem_insTok.1 h1 with h2 | h2
      · simp at h2
      · have h3 := hidxvac'
        rw [h2] at h3
        have h4 := ht2live2
        rw [h3] at h4
        exact Bool.noConfusion h4
    · have hlive := hmono02 _ (hin.2 _ (hdetS ▸ hsubO _ h1))
      rw [hidxvac'] at hlive
      exact Bool.noConfusion hlive
  have hstaleLive : ∀ t ∈ out.foldl insTok (insTok [] ev2.token),
      (slabGet s1.pumps t).isSome = true := by
    intro t ht
    rcases foldl_insTok_mem.1 ht with h1 | h1
    · rcases mem_insTok.1 h1 with h2 | h2
      · simp at h2
      · subst h2
        exact hmonoA _ ht2live2
    · exact hdetA t (hsubO t h1)
  have hstaleNodup : (out.foldl insTok (insTok [] ev2.token)).Nodup :=
    foldl_insTok_nodup (insTok_nodup List.nodup_nil)
  obtain ⟨s2, lgD, heqD, hlkD, hdetD, hdropD, hothD, hlpD⟩ :=
    dropStale_spec hlkA hdetA hstaleLive hstaleNodup
  have hD : dispatch s [ev1, ev2] = some
      (s2, [PollOp.rereg ev1.token] ++ lgA ++ lgD) := by
    simp only [dispatch, hproc, heqA, hscan, heqD]
  rw [hD]
  simp only [pumpsOf, linksOf, logOf]
  have hlookD1 : lookupLink s2.links ev1.token = some idx :=
    hlpD _ _ hlook1 ht1notstale hidxnotstale
  have hlookD2 : lookupLink s2.links idx = some ev1.token :=
    hlpD _ _ hlook2 hidxnotstale ht1notstale
  refine ⟨fun h => Option.noConfusion h, (hdropD _ ht2stale).1, ?_, ?_, ?_, ?_, ?_, ?_⟩
  · exact List.mem_append.2 (Or.inr (hdropD _ ht2stale).2)
  · rw [hlookD1]
    rfl
  · rw [hlookD1]
    exact hlookD2
  · rw [hlookD1]
    simp only [Option.getD_some]
    rw [hothD idx hidxnotstale]
    exact hidxlive
  · rw [hlookD1]
    exact List.mem_append.2 (Or.inl (List.mem_append.2 (Or.inr hregA)))
  · intro d hd qd hqd houtb
    have hdne1 : d ≠ ev1.token := fun h => h1det (h ▸ hd)
    have hdne2 : d ≠ ev2.token := fun h => h2det (h ▸ hd)
    have hd2 : slabGet (slabSet (slabSet s.pumps ev1.token
        (some (Pump.mk [] q1.outBuf q1.wantRead))) ev2.token (some q2)) d =
        some qd := by
      rw [slabGet_slabSet_ne _ (fun h => hdne2 h.symm),
        slabGet_slabSet_ne _ (fun h => hdne1 h.symm)]
      exact hqd
    have hd_s1 : slabGet s1.pumps d = some qd := by
      rw [hvalA' d (by rw [hd2]; rfl)]
      exact hd2
    have hwfalse : qd.wantsWrite = false := by
      simp [Pump.wantsWrite, houtb]
    have hdout : d ∈ out := hallO d (hdetS ▸ hd) qd hd_s1 hwfalse
    have hdstale : d ∈ out.foldl insTok (insTok [] ev2.token) :=
      foldl_insTok_mem.2 (Or.inr hdout)
    exact (hdropD d hdstale).1

/-- C10 witness: pump 0 routes to a fresh upstream, pump 1 fails its flush
and breaks the batch, detached pump 2 (write-idle) is still reaped, pump 1
is dropped, and the new pairing for pump 0 is installed. -/
theorem flush_err_still_reconciles_w :
    dispatch (Server.mk [some ⟨[1], [], true⟩, some ⟨[], [4], true⟩,
        some ⟨[], [], true⟩] [] [2])
      [Ev.mk 0 true false false false (DrainRes.route [2] (some ⟨[], [], true⟩))
        none none,
       Ev.mk 1 false true false false (DrainRes.quiet []) none none] ≠ none ∧
    slabGet (pumpsOf (dispatch (Server.mk [some ⟨[1], [], true⟩,
        some ⟨[], [4], true⟩, some ⟨[], [], true⟩] [] [2])
      [Ev.mk 0 true false false false (DrainRes.route [2] (some ⟨[], [], true⟩))
        none none,
       Ev.mk 1 false true false false (DrainRes.quiet []) none none])) 1 = none ∧
    PollOp.dereg 1 ∈ logOf (dispatch (Server.mk [some ⟨[1], [], true⟩,
        some ⟨[], [4], true⟩, some ⟨[], [], true⟩] [] [2])
      [Ev.mk 0 true false false false (DrainRes.route [2] (some ⟨[], [], true⟩))
        none none,
       Ev.mk 1 false true false false (DrainRes.quiet []) none none]) ∧
    (lookupLink (linksOf (dispatch (Server.mk [some ⟨[1], [], true⟩,
        some ⟨[], [4], true⟩, some ⟨[], [], true⟩] [] [2])
      [Ev.mk 0 true false false false (DrainRes.route [2] (some ⟨[], [], true⟩))
        none none,
       Ev.mk 1 false true false false (DrainRes.quiet []) none none])) 0).isSome =
      true ∧
    slabGet (pumpsOf (dispatch (Server.mk [some ⟨[1], [], true⟩,
        some ⟨[], [4], true⟩, some ⟨[], [], true⟩] [] [2])
      [Ev.mk 0 true false false false (DrainRes.route [2] (some ⟨[], [], true⟩))
        none none,
       Ev.mk 1 false true false false (DrainRes.quiet []) none none])) 2 = none := by
  have h := flush_err_still_reconciles
    (Server.mk [some ⟨[1], [], true⟩, some ⟨[], [4], true⟩, some ⟨[], [], true⟩]
      [] [2])
    (Ev.mk 0 true false false false (DrainRes.route [2] (some ⟨[], [], true⟩))
      none none)
    (Ev.mk 1 false true false false (DrainRes.quiet []) none none)
    ⟨[1], [], true⟩ ⟨[], [4], true⟩ ⟨[], [], true⟩ [2]
    (⟨⟨fun kv hkv => absurd hkv (List.not_mem_nil kv),
       fun kv hkv => absurd hkv (List.not_mem_nil kv),
       fun kv hkv => absurd hkv (List.not_mem_nil kv)⟩,
      fun t ht => by
        rw [List.mem_singleton] at ht
        subst ht
        rfl⟩)
    (by decide) (by decide) (by decide) rfl rfl rfl rfl rfl rfl rfl
    rfl (by decide) rfl rfl rfl rfl (by decide)
  exact ⟨h.1, h.2.1, h.2.2.1, h.2.2.2.1,
    h.2.2.2.2.2.2.2 2 (by decide) ⟨[], [], true⟩ rfl rfl⟩

end MTProxy
